import Mathlib

/-! # adaptive-hive: membership store, wire codec and network simulator

A shallow embedding of `pkg/types/node.go`, `pkg/types/messages.go`,
`internal/gossip/messages.go`, `internal/gossip/membership.go`,
`internal/gossip/codec.go` and `internal/gossip/test_transport.go`, followed by the
properties established about them.

Conventions of the embedding.
* Go's `map[string]*types.Node` is an association list; a key occurs at most once in
  every store produced by `Merge`, and the theorems that need this say so.
* `time.Now()` is an explicit argument of `Merge`.
* `uint8`/`uint32`/`uint64`/`int64` fields are naturals or integers; the embedded
  functions only compare and copy them, so no wrap-around arises.
* The two sources of nondeterminism of `RandomNodes` (the iteration order of a Go map
  and the draws of `math/rand`) are explicit oracle arguments.
* Slices and maps are lists, so a nil slice and an empty one are the same value; a
  pointer field is an `Option`.
* `encoding/gob` is a parameter of the codec (`Gob`); what the codec needs from it is
  collected in `GobLawful`.
* A `*TestTransport` is an index into the list of transports allocated so far; the
  registry of the network maps an address to such an index.
* A buffered channel is its capacity together with the list of messages waiting in it
  and a flag telling whether it has been closed; channels are open in every state the
  operations build, so the panic of a send on a closed channel does not arise.
* The `float64` drop rate and the value of `rand.Float64()` are rationals: the code only
  compares them (a NaN rate fails both comparisons of `send`, as the rate 0 does).
  `time.Sleep` has no effect on the state and is left out.
-/

/-! ## pkg/types/node.go -/

namespace types

/-- NodeID uniquely identifies a node in a cluster (`type NodeID string`). -/
abbrev NodeID := String

/-- NodeState represents the membership state of a node (`type NodeState int`). -/
abbrev NodeState := Int

def StateAlive : NodeState := 0
def StateSuspect : NodeState := 1
def StateDead : NodeState := 2
def StateLeft : NodeState := 3

/-- Instants of `time.Time`, counted from the zero value of the type. -/
abbrev Time := Nat

/-- Resources describes the available resources on a node. -/
structure Resources where
  CPUMillis : Int
  MemoryBytes : Int
  DiskBytes : Int
deriving DecidableEq, Repr

/-- NodeMetadata contains additional information about a node. -/
structure NodeMetadata where
  Resources : types.Resources
  Labels : List (String × String)
  Priority : Int
deriving DecidableEq, Repr

/-- Node represents a member of the cluster. -/
structure Node where
  ID : NodeID
  Address : String
  State : NodeState
  Incarnation : Nat
  Metadata : NodeMetadata
  LastUpdated : Time
deriving DecidableEq, Repr

/-- The zero value `types.NodeMetadata{}`. -/
def NodeMetadata.zero : NodeMetadata :=
  { Resources := { CPUMillis := 0, MemoryBytes := 0, DiskBytes := 0 }, Labels := [], Priority := 0 }

/-- The zero value `types.Node{}`. -/
def Node.zero : Node :=
  { ID := "", Address := "", State := 0, Incarnation := 0, Metadata := NodeMetadata.zero,
    LastUpdated := 0 }

/-! ## pkg/types/messages.go -/

/-- NetworkMessage represents a raw message received from the network. -/
structure NetworkMessage where
  Payload : List Nat
  From : String
  Time : Time
deriving DecidableEq, Repr

end types

namespace gossip

open types

/-! ## internal/gossip/messages.go: the gossip entry -/

/-- GossipEntry is a single piece of membership information being disseminated. -/
structure GossipEntry where
  NodeID : types.NodeID
  Address : String
  State : NodeState
  Incarnation : Nat
  Metadata : Option NodeMetadata
  Timestamp : Int
deriving DecidableEq, Repr

/-! ## internal/gossip/membership.go -/

/-! ### Go map primitives on the association list -/

/-- The map read `node, exists := m[k]`. -/
def mapGet (k : String) : List (String × Node) → Option Node
  | [] => none
  | (k', v) :: rest => if k' = k then some v else mapGet k rest

/-- The map write `m[k] = v`: overwrite the binding of `k`, or add one. -/
def mapSet (k : String) (v : Node) : List (String × Node) → List (String × Node)
  | [] => [(k, v)]
  | (k', v') :: rest => if k' = k then (k, v) :: rest else (k', v') :: mapSet k v rest

/-- The store: `nodes map[string]*types.Node` (the mutex is not modelled). -/
structure membership where
  nodes : List (String × Node)
deriving DecidableEq, Repr

def NewMembership : membership := { nodes := [] }

def membership.GetNode (m : membership) (id : NodeID) : Node × Bool :=
  match mapGet id m.nodes with
  | none => (Node.zero, false)
  | some node => (node, true)

/-- The body of `AllNodes` is `return make([]types.Node, 0)`. -/
def membership.AllNodes (_m : membership) : List Node := []

/-- The body of `GetNodesByState` is `return make([]types.Node, 0)`. -/
def membership.GetNodesByState (_m : membership) (_state : NodeState) : List Node := []

def membership.Len (m : membership) : Nat := m.nodes.length

/-- The conflict resolution of `Merge`; `now` is the value of `time.Now()`.
Returns the store after the call and the reported `changed` flag. -/
def membership.Merge (m : membership) (entry : GossipEntry) (now : Time) : membership × Bool :=
  match mapGet entry.NodeID m.nodes with
  | none =>
    let node : Node :=
      { ID := entry.NodeID, Address := entry.Address, State := entry.State,
        Incarnation := entry.Incarnation, Metadata := NodeMetadata.zero, LastUpdated := now }
    ({ nodes := mapSet entry.NodeID node m.nodes }, true)
  | some node =>
    if entry.Incarnation > node.Incarnation then
      ({ nodes := mapSet entry.NodeID
          { node with State := entry.State, Incarnation := entry.Incarnation } m.nodes }, true)
    else if entry.Incarnation = node.Incarnation ∧ entry.State > node.State then
      ({ nodes := mapSet entry.NodeID
          { node with State := entry.State, Incarnation := entry.Incarnation } m.nodes }, true)
    else
      (m, false)

/-- A finite sequence of `Merge` calls, each with its own clock reading. -/
def mergeSeq (m : membership) : List (GossipEntry × Time) → membership
  | [] => m
  | (e, now) :: rest => mergeSeq (m.Merge e now).1 rest

def isExcluded (excludedNodes : List NodeID) (node : Node) : Bool :=
  excludedNodes.contains node.ID

def isLiveState (state : NodeState) : Bool :=
  state == StateAlive || state == StateSuspect

/-- The closure `nodes[i], nodes[j] = nodes[j], nodes[i]`. -/
def swap {α : Type} (xs : List α) (i j : Nat) : List α :=
  match xs[i]?, xs[j]? with
  | some a, some b => (xs.set i b).set j a
  | _, _ => xs

/-- The loop of `rand.Shuffle`: for `i` from `n-1` down to `1`, draw `j` in `[0, i]`
and swap positions `i` and `j`. The draw made at index `i` is `rnd i`. -/
def shuffleLoop {α : Type} (rnd : Nat → Nat) : Nat → List α → List α
  | 0, xs => xs
  | i + 1, xs => shuffleLoop rnd i (swap xs (i + 1) (rnd (i + 1) % (i + 2)))

/-- The library call `rand.Shuffle(len(xs), swap)`. -/
def Shuffle {α : Type} (rnd : Nat → Nat) (xs : List α) : List α :=
  shuffleLoop rnd (xs.length - 1) xs

def randomize (rnd : Nat → Nat) (nodes : List Node) : List Node :=
  Shuffle rnd nodes

/-- The order in which `for _, val := range m.nodes` visits the map. Go leaves it
unspecified; the oracle `order` picks it. -/
def mapRange (order : Nat → Nat) (nodes : List (String × Node)) : List Node :=
  (Shuffle order nodes).map Prod.snd

/-- The body of the `range` loop of `RandomNodes`, folded over the visited values. -/
def collectLive (exclude : List NodeID) (rnodes : List Node) : List Node → List Node
  | [] => rnodes
  | val :: rest =>
    if isExcluded exclude val then collectLive exclude rnodes rest
    else if !isLiveState val.State then collectLive exclude rnodes rest
    else collectLive exclude (rnodes ++ [val]) rest

def membership.RandomNodes (m : membership) (order rnd : Nat → Nat) (k : Int)
    (exclude : List NodeID) : List Node :=
  if k < 1 ∨ m.nodes.length = 0 then []
  else
    let rnodes := randomize rnd (collectLive exclude [] (mapRange order m.nodes))
    if (rnodes.length : Int) > k then rnodes.take k.toNat else rnodes

/-- The body of `Suspect` is `return false`; the store is not touched. -/
def membership.Suspect (m : membership) (_id : NodeID) : membership × Bool := (m, false)

/-- The body of `Dead` is `return false`; the store is not touched. -/
def membership.Dead (m : membership) (_id : NodeID) : membership × Bool := (m, false)

/-- The body of `Remove` is empty; the store is not touched. -/
def membership.Remove (m : membership) (_id : NodeID) : membership := m

def membership.RandomNode (m : membership) (order rnd : Nat → Nat) (exclude : List NodeID) :
    Node × Bool :=
  match m.RandomNodes order rnd 1 exclude with
  | [] => (Node.zero, false)
  | n :: _ => (n, true)

/-! ## internal/gossip/messages.go: the protocol messages -/

/-- MessageType identifies the kind of gossip protocol message (`uint8`). -/
abbrev MessageType := Nat

def MessageTypePing : MessageType := 1
def MessageTypePingReq : MessageType := 2
def MessageTypeAck : MessageType := 3
def MessageTypeNack : MessageType := 4
def MessageTypeSync : MessageType := 5
def MessageTypeSyncResponse : MessageType := 6
def MessageTypeLeave : MessageType := 7

/-- MessageHeader is embedded in all gossip protocol messages. -/
structure MessageHeader where
  Version : Nat
  /-- The field `Type` of the source; the bare word is reserved in Lean. -/
  Type_ : MessageType
  SeqNo : Nat
  SourceID : String
deriving DecidableEq, Repr

/-- Ping checks if a target node is alive. -/
structure Ping where
  MessageHeader : gossip.MessageHeader
  Target : String
  Gossip : List GossipEntry
deriving DecidableEq, Repr

/-- Ack responds to a successful ping. -/
structure Ack where
  MessageHeader : gossip.MessageHeader
  Gossip : List GossipEntry
deriving DecidableEq, Repr

/-- Nack indicates a failed indirect ping. -/
structure Nack where
  MessageHeader : gossip.MessageHeader
deriving DecidableEq, Repr

/-- PingReq asks another node to ping a target on our behalf. -/
structure PingReq where
  Ping : gossip.Ping
  TargetAdder : String
deriving DecidableEq, Repr

def MessageHeader.zero : MessageHeader := { Version := 0, Type_ := 0, SeqNo := 0, SourceID := "" }
def Ping.zero : Ping := { MessageHeader := MessageHeader.zero, Target := "", Gossip := [] }
def Ack.zero : Ack := { MessageHeader := MessageHeader.zero, Gossip := [] }
def PingReq.zero : PingReq := { Ping := Ping.zero, TargetAdder := "" }

/-! ## internal/gossip/codec.go -/

/-- Byte strings (`[]byte`), one natural below 256 per byte. -/
abbrev Bytes := List Nat

structure envelope where
  Type_ : MessageType
  Payload : Bytes
deriving DecidableEq, Repr

/-- The dynamic type and value behind an argument of static type `any`: a pointer to one
of the message structs or to an envelope, or a value of some other type, named by
`typeName`. -/
inductive Message where
  | ping (p : Ping)
  | ack (a : Ack)
  | pingReq (r : PingReq)
  | nack (n : Nack)
  | envelope (e : gossip.envelope)
  | other (typeName : String)
deriving DecidableEq, Repr

/-- The errors `Encode` and `Decode` return: the two built with `errors.New` in
`codec.go`, and errors handed up unchanged from `encoding/gob`. -/
inductive Error where
  | unknownMessageType
  | emptyPayload
  | gob (err : String)
deriving DecidableEq, Repr

/-- The library `encoding/gob`, which `codec.go` imports: `encode v` is what a fresh
encoder writes for `v`, `decodeEnvelope data` is what a fresh decoder reading `data`
stores into a zero envelope, and `decode msg data` is what it stores into the message
`msg` points to. -/
structure Gob where
  encode : Message → Except String Bytes
  decodeEnvelope : Bytes → Except String gossip.envelope
  decode : Message → Bytes → Except String Message

/-- What the codec relies on from `encoding/gob`: the three message structs and the
envelope always encode, to at least one byte, and decoding the bytes into a zero value
of the same type gives back the value encoded. -/
structure GobLawful (g : Gob) : Prop where
  ping_ok : ∀ p : Ping, ∃ b, g.encode (Message.ping p) = Except.ok b ∧ b ≠ [] ∧
    g.decode (Message.ping Ping.zero) b = Except.ok (Message.ping p)
  ack_ok : ∀ a : Ack, ∃ b, g.encode (Message.ack a) = Except.ok b ∧ b ≠ [] ∧
    g.decode (Message.ack Ack.zero) b = Except.ok (Message.ack a)
  pingReq_ok : ∀ r : PingReq, ∃ b, g.encode (Message.pingReq r) = Except.ok b ∧ b ≠ [] ∧
    g.decode (Message.pingReq PingReq.zero) b = Except.ok (Message.pingReq r)
  envelope_ok : ∀ e : gossip.envelope, ∃ b, g.encode (Message.envelope e) = Except.ok b ∧
    g.decodeEnvelope b = Except.ok e

def getMessageType (msg : Message) : MessageType :=
  match msg with
  | Message.ping _ => MessageTypePing
  | Message.ack _ => MessageTypeAck
  | Message.pingReq _ => MessageTypePingReq
  | _ => 0

def newMessageByType (messageType : MessageType) : Except Error Message :=
  if messageType = MessageTypePing then Except.ok (Message.ping Ping.zero)
  else if messageType = MessageTypeAck then Except.ok (Message.ack Ack.zero)
  else if messageType = MessageTypePingReq then Except.ok (Message.pingReq PingReq.zero)
  else Except.error Error.unknownMessageType

def Encode (g : Gob) (msg : Message) : Except Error Bytes :=
  let msgType := getMessageType msg
  if msgType = 0 then Except.error Error.unknownMessageType
  else
    match g.encode msg with
    | Except.error err => Except.error (Error.gob err)
    | Except.ok payload =>
      if payload.length = 0 then Except.error Error.emptyPayload
      else
        match g.encode (Message.envelope { Type_ := msgType, Payload := payload }) with
        | Except.error err => Except.error (Error.gob err)
        | Except.ok bytes => Except.ok bytes

def Decode (g : Gob) (data : Bytes) : Except Error Message :=
  match g.decodeEnvelope data with
  | Except.error err => Except.error (Error.gob err)
  | Except.ok env =>
    match newMessageByType env.Type_ with
    | Except.error err => Except.error err
    | Except.ok msg =>
      match g.decode msg env.Payload with
      | Except.error err => Except.error (Error.gob err)
      | Except.ok msg' => Except.ok msg'

/-! ### A reference serializer

A concrete `Gob` built from Mathlib's `Encodable` numbering of the message types: the
code number is written in base 256, least significant byte first, after a marker byte. -/

instance : Encodable Char :=
  Encodable.ofLeftInverse Char.toNat Char.ofNat (fun c => Char.ofNat_toNat c)

instance : Encodable String :=
  Encodable.ofLeftInverse String.toList String.mk (fun _ => rfl)

instance : Encodable Resources :=
  Encodable.ofLeftInverse (fun r => (r.CPUMillis, r.MemoryBytes, r.DiskBytes))
    (fun t => ⟨t.1, t.2.1, t.2.2⟩) (fun _ => rfl)

instance : Encodable NodeMetadata :=
  Encodable.ofLeftInverse (fun r => (r.Resources, r.Labels, r.Priority))
    (fun t => ⟨t.1, t.2.1, t.2.2⟩) (fun _ => rfl)

instance : Encodable GossipEntry :=
  Encodable.ofLeftInverse
    (fun r => (r.NodeID, r.Address, r.State, r.Incarnation, r.Metadata, r.Timestamp))
    (fun t => ⟨t.1, t.2.1, t.2.2.1, t.2.2.2.1, t.2.2.2.2.1, t.2.2.2.2.2⟩) (fun _ => rfl)

instance : Encodable MessageHeader :=
  Encodable.ofLeftInverse (fun r => (r.Version, r.Type_, r.SeqNo, r.SourceID))
    (fun t => ⟨t.1, t.2.1, t.2.2.1, t.2.2.2⟩) (fun _ => rfl)

instance : Encodable Ping :=
  Encodable.ofLeftInverse (fun r => (r.MessageHeader, r.Target, r.Gossip))
    (fun t => ⟨t.1, t.2.1, t.2.2⟩) (fun _ => rfl)

instance : Encodable Ack :=
  Encodable.ofLeftInverse (fun r => (r.MessageHeader, r.Gossip))
    (fun t => ⟨t.1, t.2⟩) (fun _ => rfl)

instance : Encodable PingReq :=
  Encodable.ofLeftInverse (fun r => (r.Ping, r.TargetAdder))
    (fun t => ⟨t.1, t.2⟩) (fun _ => rfl)

instance : Encodable envelope :=
  Encodable.ofLeftInverse (fun r => (r.Type_, r.Payload))
    (fun t => ⟨t.1, t.2⟩) (fun _ => rfl)

/-- Write the code number of `a` as bytes. -/
def refBytes {α : Type} [Encodable α] (a : α) : Bytes :=
  1 :: Nat.digits 256 (Encodable.encode a)

/-- Read back a value written by `refBytes`. -/
def refParse {α : Type} [Encodable α] (b : Bytes) : Except String α :=
  match b with
  | 1 :: ds =>
    match Encodable.decode (Nat.ofDigits 256 ds) with
    | some a => Except.ok a
    | none => Except.error "malformed"
  | _ => Except.error "malformed"

def refGob : Gob where
  encode := fun v =>
    match v with
    | Message.ping p => Except.ok (refBytes p)
    | Message.ack a => Except.ok (refBytes a)
    | Message.pingReq r => Except.ok (refBytes r)
    | Message.envelope e => Except.ok (refBytes e)
    | _ => Except.error "unsupported type"
  decodeEnvelope := fun b => refParse b
  decode := fun target b =>
    match target with
    | Message.ping _ => (refParse b).map Message.ping
    | Message.ack _ => (refParse b).map Message.ack
    | Message.pingReq _ => (refParse b).map Message.pingReq
    | _ => Except.error "unsupported type"

/-! ### Sample stores and entries -/

/-- The entry `{NodeID: id, Address: "10.0.0.1:1234", State: st, Incarnation: inc}`. -/
def exEntry (id : NodeID) (st : NodeState) (inc : Nat) : GossipEntry :=
  { NodeID := id, Address := "10.0.0.1:1234", State := st, Incarnation := inc,
    Metadata := none, Timestamp := 0 }

/-- The store obtained from the empty one by merging `exEntry id st inc`. -/
def exStore (id : NodeID) (st : NodeState) (inc : Nat) : membership :=
  (NewMembership.Merge (exEntry id st inc) 0).1

/-- The node `exStore id st inc` holds for `id`. -/
def exNode (id : NodeID) (st : NodeState) (inc : Nat) : Node :=
  { ID := id, Address := "10.0.0.1:1234", State := st, Incarnation := inc,
    Metadata := NodeMetadata.zero, LastUpdated := 0 }

/-- The store of `TestMembership_RandomNodesExcludesDeadAndLeft`: one node in each of
the four states. -/
def exFourStore : membership :=
  mergeSeq NewMembership
    [(exEntry "alive" StateAlive 1, 0), (exEntry "dead" StateDead 1, 0),
     (exEntry "suspect" StateSuspect 1, 0), (exEntry "left" StateLeft 1, 0)]

/-! ### Notions used to state the properties of the store -/

/-- The stored nodes that are Alive or Suspect and whose ID is not excluded, in the
order of the association list. -/
def eligible (m : membership) (exclude : List NodeID) : List Node :=
  (m.nodes.map Prod.snd).filter
    (fun n => decide ((n.State = StateAlive ∨ n.State = StateSuspect) ∧ n.ID ∉ exclude))

/-- The shape of every store built by `Merge`: one binding per key, and each node filed
under its own ID. -/
def WellFormed (m : membership) : Prop :=
  (m.nodes.map Prod.fst).Nodup ∧ ∀ kv ∈ m.nodes, kv.2.ID = kv.1

/-! ### Sample messages -/

/-- The header of the codec tests, with the given type tag. -/
def exHeader (t : MessageType) : MessageHeader :=
  { Version := 1, Type_ := t, SeqNo := 42, SourceID := "node1" }

/-- The message of `TestCodec_RoundtripPing`, one piggybacked entry. -/
def exPing : Ping :=
  { MessageHeader := exHeader MessageTypePing, Target := "",
    Gossip := [exEntry "node2" StateAlive 5] }

/-- A `Nack`, the declared message struct that has no case in `getMessageType`. -/
def exNack : Nack := { MessageHeader := exHeader MessageTypeNack }

/-! ## internal/gossip/test_transport.go -/

/-! ### Go map primitives, for any value type -/

/-- The map read `v, ok := m[k]`. -/
def kvGet {β : Type} (k : String) : List (String × β) → Option β
  | [] => none
  | (k', v) :: rest => if k' = k then some v else kvGet k rest

/-- The map write `m[k] = v`. -/
def kvSet {β : Type} (k : String) (v : β) : List (String × β) → List (String × β)
  | [] => [(k, v)]
  | (k', v') :: rest => if k' = k then (k, v) :: rest else (k', v') :: kvSet k v rest

/-- The builtin `delete(m, k)`. -/
def kvDelete {β : Type} (k : String) : List (String × β) → List (String × β)
  | [] => []
  | (k', v) :: rest => if k' = k then kvDelete k rest else (k', v) :: kvDelete k rest

/-- The one sentinel error of the file, `ErrTransportStopped`; a nil `error` is `none`. -/
inductive TransportError where
  | ErrTransportStopped
deriving DecidableEq, Repr

/-- A value of type `chan *types.NetworkMessage`: capacity, buffered messages (oldest
first) and whether `close` has been called on it. `make` returns an open channel, and
no statement of the source closes one. -/
structure Chan where
  cap : Nat
  buf : List NetworkMessage
  closed : Bool := false
deriving DecidableEq, Repr

/-- The non-blocking send `select { case ch <- msg: default: }`: the message is
buffered when there is room and discarded when the channel is full. -/
def Chan.trySend (ch : Chan) (msg : NetworkMessage) : Chan :=
  if ch.buf.length < ch.cap then { ch with buf := ch.buf ++ [msg] } else ch

/-- What the receive `msg, ok := <-ch` does: it takes the oldest buffered message, or
returns at once with `ok = false` when the channel is empty and closed, or blocks while
the channel is empty and open. -/
inductive RecvResult where
  | message (msg : NetworkMessage) (rest : Chan)
  | closed
  | blocks
deriving DecidableEq, Repr

/-- The receive `msg, ok := <-ch`. -/
def Chan.recv (ch : Chan) : RecvResult :=
  match ch.buf with
  | msg :: rest => RecvResult.message msg { ch with buf := rest }
  | [] => if ch.closed then RecvResult.closed else RecvResult.blocks

/-- The channel with `msg` added at the back of its buffer. -/
def Chan.push (ch : Chan) (msg : NetworkMessage) : Chan :=
  { ch with buf := ch.buf ++ [msg] }

/-- TestTransport implements Transport for testing. The field `network` is left out:
there is one network, the state the operations act on. -/
structure TestTransport where
  addr : String
  msgCh : Chan
  dropRate : Rat
  latency : Int
  running : Bool
deriving DecidableEq, Repr

/-- TestNetwork simulates a network for testing gossip protocols. `heap` holds the
transports allocated so far; `transports` and `partitions` are the two maps of the
source. -/
structure TestNetwork where
  heap : List TestTransport
  transports : List (String × Nat)
  partitions : List (String × List (String × Bool))
deriving DecidableEq, Repr

def NewTestNetwork : TestNetwork := { heap := [], transports := [], partitions := [] }

/-- The write `*ptr = tr` to an allocated transport. -/
def TestNetwork.store (n : TestNetwork) (ptr : Nat) (tr : TestTransport) : TestNetwork :=
  { n with heap := n.heap.set ptr tr }

/-- The transport `tr` with `ch` as the state of its channel. -/
def TestTransport.withQueue (tr : TestTransport) (ch : Chan) : TestTransport :=
  { tr with msgCh := ch }

/-- NewTransport creates a new TestTransport attached to this network; returns the
network and the pointer to the new transport. -/
def TestNetwork.NewTransport (n : TestNetwork) (addr : String) : TestNetwork × Nat :=
  let t : TestTransport :=
    { addr := addr, msgCh := { cap := 100, buf := [], closed := false }, dropRate := 0,
      latency := 0, running := false }
  ({ n with heap := n.heap ++ [t], transports := kvSet addr n.heap.length n.transports },
    n.heap.length)

/-- The statement `if n.partitions[k] == nil { n.partitions[k] = make(map[string]bool) }`. -/
def ensureInner (k : String) (parts : List (String × List (String × Bool))) :
    List (String × List (String × Bool)) :=
  match kvGet k parts with
  | none => kvSet k [] parts
  | some _ => parts

/-- The statement `n.partitions[a][b] = true`; `Partition` runs it only after it has made
sure that the inner map `n.partitions[a]` exists. -/
def markUnreachable (a b : String) (parts : List (String × List (String × Bool))) :
    List (String × List (String × Bool)) :=
  kvSet a (kvSet b true ((kvGet a parts).getD [])) parts

/-- One iteration of the loop of `Partition`. -/
def partitionStep (from_ : String) (parts : List (String × List (String × Bool)))
    (addr : String) : List (String × List (String × Bool)) :=
  markUnreachable addr from_ (ensureInner addr (markUnreachable from_ addr parts))

/-- Partition makes `from_` unable to reach any of the `unreachable` nodes, in both
directions. (`from` and `to` are reserved in Lean.) -/
def TestNetwork.Partition (n : TestNetwork) (from_ : String) (unreachable : List String) :
    TestNetwork :=
  { n with partitions := unreachable.foldl (partitionStep from_) (ensureInner from_ n.partitions) }

/-- The statement `if n.partitions[a] != nil { delete(n.partitions[a], b) }`. -/
def healOne (a b : String) (parts : List (String × List (String × Bool))) :
    List (String × List (String × Bool)) :=
  match kvGet a parts with
  | none => parts
  | some inner => kvSet a (kvDelete b inner) parts

def TestNetwork.Heal (n : TestNetwork) (a b : String) : TestNetwork :=
  { n with partitions := healOne b a (healOne a b n.partitions) }

/-- The test `parts, ok := partitions[from]; ok && parts[to]` of `send`, on the map. -/
def unreachableIn (partitions : List (String × List (String × Bool))) (from_ to_ : String) :
    Bool :=
  match kvGet from_ partitions with
  | none => false
  | some parts => (kvGet to_ parts).getD false

/-- Whether `send` finds `to_` unreachable from `from_` in the partition set. -/
def TestNetwork.partitioned (n : TestNetwork) (from_ to_ : String) : Bool :=
  unreachableIn n.partitions from_ to_

/-- The method `send` delivers a message from one transport to another and returns nil
even if the message is dropped. `draw` is the value of `rand.Float64()` and `now` the
value of `time.Now()`. A registered pointer always refers to an allocated transport, so
the branch for a dangling one is never taken in a state built by the operations. -/
def TestNetwork.send (n : TestNetwork) (from_ to_ : String) (msg : List Nat) (draw : Rat)
    (now : Time) : TestNetwork × Option TransportError :=
  if n.partitioned from_ to_ then (n, none)
  else
    match kvGet to_ n.transports with
    | none => (n, none)
    | some ptr =>
      match n.heap[ptr]? with
      | none => (n, none)
      | some target =>
        if !target.running then (n, none)
        else if target.dropRate > 0 ∧ draw < target.dropRate then (n, none)
        else
          (n.store ptr
            (target.withQueue (target.msgCh.trySend (NetworkMessage.mk msg from_ now))), none)

/-! The methods of `*TestTransport` take the network and the pointer; they return
`none` when the pointer refers to no allocated transport. -/

def TestTransport.SetDropRate (n : TestNetwork) (t : Nat) (rate : Rat) : Option TestNetwork :=
  match n.heap[t]? with
  | none => none
  | some tr => some (n.store t { tr with dropRate := rate })

def TestTransport.SetLatency (n : TestNetwork) (t : Nat) (d : Int) : Option TestNetwork :=
  match n.heap[t]? with
  | none => none
  | some tr => some (n.store t { tr with latency := d })

def TestTransport.Start (n : TestNetwork) (t : Nat) :
    Option (TestNetwork × Option TransportError) :=
  match n.heap[t]? with
  | none => none
  | some tr => some (n.store t { tr with running := true }, none)

def TestTransport.Stop (n : TestNetwork) (t : Nat) :
    Option (TestNetwork × Option TransportError) :=
  match n.heap[t]? with
  | none => none
  | some tr => some (n.store t { tr with running := false }, none)

def TestTransport.isRunning (n : TestNetwork) (t : Nat) : Option Bool :=
  (n.heap[t]?).map (fun tr => tr.running)

def TestTransport.SendTo (n : TestNetwork) (t : Nat) (addr : String) (msg : List Nat)
    (draw : Rat) (now : Time) : Option (TestNetwork × Option TransportError) :=
  match n.heap[t]? with
  | none => none
  | some tr =>
    if !tr.running then some (n, some TransportError.ErrTransportStopped)
    else some (n.send tr.addr addr msg draw now)

def TestTransport.Messages (n : TestNetwork) (t : Nat) : Option Chan :=
  (n.heap[t]?).map (fun tr => tr.msgCh)

def TestTransport.LocalAddr (n : TestNetwork) (t : Nat) : Option String :=
  (n.heap[t]?).map (fun tr => tr.addr)

/-! ### Runs of the simulator -/

/-- One call on the network or on one of its transports, with the values the call
draws from the random source and the clock. -/
inductive Op where
  | newTransport (addr : String)
  | start (t : Nat)
  | stop (t : Nat)
  | setDropRate (t : Nat) (rate : Rat)
  | setLatency (t : Nat) (d : Int)
  | partition (from_ : String) (unreachable : List String)
  | heal (a b : String)
  | send (from_ to_ : String) (msg : List Nat) (draw : Rat) (now : Time)
  | sendTo (t : Nat) (addr : String) (msg : List Nat) (draw : Rat) (now : Time)
deriving DecidableEq, Repr

/-- The network after one call; a call through a pointer that refers to no transport
cannot be made and leaves the network as it is. -/
def step (n : TestNetwork) : Op → TestNetwork
  | Op.newTransport addr => (n.NewTransport addr).1
  | Op.start t => ((TestTransport.Start n t).map Prod.fst).getD n
  | Op.stop t => ((TestTransport.Stop n t).map Prod.fst).getD n
  | Op.setDropRate t rate => (TestTransport.SetDropRate n t rate).getD n
  | Op.setLatency t d => (TestTransport.SetLatency n t d).getD n
  | Op.partition from_ unreachable => n.Partition from_ unreachable
  | Op.heal a b => n.Heal a b
  | Op.send from_ to_ msg draw now => (n.send from_ to_ msg draw now).1
  | Op.sendTo t addr msg draw now => ((TestTransport.SendTo n t addr msg draw now).map Prod.fst).getD n

/-- The network after a sequence of calls. -/
def run (n : TestNetwork) (ops : List Op) : TestNetwork :=
  ops.foldl step n

/-! ### Sample networks -/

/-- The network of the transport tests: transports at "node1" and "node2" (pointers 0
and 1), both started. -/
def exNet : TestNetwork :=
  run NewTestNetwork
    [Op.newTransport "node1", Op.newTransport "node2", Op.start 0, Op.start 1]

/-- The payload `[]byte("hello")`. -/
def exHello : List Nat := [104, 101, 108, 108, 111]

/-- The transport of `exNet` at the given address: started, empty queue. -/
def exTransport (addr : String) : TestTransport :=
  { addr := addr, msgCh := { cap := 100, buf := [] }, dropRate := 0, latency := 0,
    running := true }

/-- The network of `SendAfterStopFails`: node1 created, started and stopped. -/
def exStopped : TestNetwork :=
  run NewTestNetwork [Op.newTransport "node1", Op.start 0, Op.stop 0]

/-- The network `exNet` after node1 has sent "hello" to node2 a hundred times with
nobody reading: node2's queue is full. -/
def exFull : TestNetwork :=
  run exNet (List.replicate 100 (Op.send "node1" "node2" exHello 0 1))

/-- A well-formed envelope that carries the declared tag `MessageTypeNack`. -/
def exNackEnvelope : envelope := { Type_ := MessageTypeNack, Payload := [1] }

/-- An entry for "node1" at incarnation 6 that names another address. -/
def exMovedEntry : GossipEntry :=
  { NodeID := "node1", Address := "10.9.9.9:4321", State := StateSuspect, Incarnation := 6,
    Metadata := none, Timestamp := 0 }

/-- The lexicographic order on pairs `(Incarnation, State)`: first by incarnation, then
by severity of the state. -/
def lexLe (a b : Nat × Int) : Prop :=
  a.1 < b.1 ∨ (a.1 = b.1 ∧ a.2 ≤ b.2)

instance (a b : Nat × Int) : Decidable (lexLe a b) :=
  inferInstanceAs (Decidable (a.1 < b.1 ∨ (a.1 = b.1 ∧ a.2 ≤ b.2)))

/-! # Properties

Helper lemmas and the theorems about the embedded code. -/

/-! ## The reference serializer is lawful -/

theorem refParse_refBytes {α : Type} [Encodable α] (a : α) :
    refParse (refBytes a) = (Except.ok a : Except String α) := by
  simp [refParse, refBytes, Nat.ofDigits_digits]

theorem refGob_lawful : GobLawful refGob := by
  constructor
  · intro p; exact ⟨refBytes p, rfl, by simp [refBytes], by simp [refGob, refParse_refBytes, Except.map]⟩
  · intro p; exact ⟨refBytes p, rfl, by simp [refBytes], by simp [refGob, refParse_refBytes, Except.map]⟩
  · intro p; exact ⟨refBytes p, rfl, by simp [refBytes], by simp [refGob, refParse_refBytes, Except.map]⟩
  · intro p; exact ⟨refBytes p, rfl, by simp [refGob, refParse_refBytes]⟩

/-! ## The association list and `Merge` -/

theorem mapGet_mapSet_same (k : String) (v : Node) (l : List (String × Node)) :
    mapGet k (mapSet k v l) = some v := by
  induction l with
  | nil => simp [mapSet, mapGet]
  | cons hd tl ih =>
    obtain ⟨k', v'⟩ := hd
    by_cases h : k' = k
    · simp [mapSet, mapGet, h]
    · simp [mapSet, mapGet, h, ih]

theorem mapGet_mapSet_other (k k' : String) (v : Node) (l : List (String × Node))
    (hne : k' ≠ k) : mapGet k' (mapSet k v l) = mapGet k' l := by
  induction l with
  | nil => simp [mapSet, mapGet, Ne.symm hne]
  | cons hd tl ih =>
    obtain ⟨k₀, v₀⟩ := hd
    by_cases h : k₀ = k
    · subst h
      simp [mapSet, mapGet, Ne.symm hne]
    · by_cases h' : k₀ = k'
      · subst h'
        simp [mapSet, mapGet, h]
      · simp [mapSet, mapGet, h, h', ih]

theorem GetNode_found (m : membership) (id : NodeID) (node : Node) :
    m.GetNode id = (node, true) ↔ mapGet id m.nodes = some node := by
  unfold membership.GetNode
  cases h : mapGet id m.nodes <;> simp

theorem GetNode_absent (m : membership) (id : NodeID) :
    (m.GetNode id).2 = false ↔ mapGet id m.nodes = none := by
  unfold membership.GetNode
  cases h : mapGet id m.nodes <;> simp

/-- What `Merge` does to a store that holds `node` for the entry's id. -/
theorem Merge_known (m : membership) (entry : GossipEntry) (now : Time) (node : Node)
    (hget : mapGet entry.NodeID m.nodes = some node) :
    m.Merge entry now =
      if entry.Incarnation > node.Incarnation ∨
          (entry.Incarnation = node.Incarnation ∧ entry.State > node.State) then
        ({ nodes := mapSet entry.NodeID
            { node with State := entry.State, Incarnation := entry.Incarnation } m.nodes }, true)
      else (m, false) := by
  unfold membership.Merge
  rw [hget]
  by_cases h1 : entry.Incarnation > node.Incarnation
  · simp [h1]
  · by_cases h2 : entry.Incarnation = node.Incarnation ∧ entry.State > node.State
    · simp [h1, h2]
    · simp [h1, h2]

/-- What `Merge` does to a store that holds no node for the entry's id. -/
theorem Merge_unknown (m : membership) (entry : GossipEntry) (now : Time)
    (hget : mapGet entry.NodeID m.nodes = none) :
    m.Merge entry now =
      ({ nodes := mapSet entry.NodeID
          { ID := entry.NodeID, Address := entry.Address, State := entry.State,
            Incarnation := entry.Incarnation, Metadata := NodeMetadata.zero,
            LastUpdated := now } m.nodes }, true) := by
  unfold membership.Merge
  rw [hget]

/-- C1. If the store holds a node for the entry's id and the entry's incarnation is
strictly greater than the stored one, `Merge` reports a change and the stored node
afterwards carries the entry's state and incarnation, whatever its state was. -/
theorem Merge_higher_incarnation_wins (m : membership) (entry : GossipEntry) (now : Time)
    (node : Node) (hget : m.GetNode entry.NodeID = (node, true))
    (hinc : entry.Incarnation > node.Incarnation) :
    (m.Merge entry now).2 = true ∧
    ((m.Merge entry now).1.GetNode entry.NodeID).2 = true ∧
    ((m.Merge entry now).1.GetNode entry.NodeID).1.State = entry.State ∧
    ((m.Merge entry now).1.GetNode entry.NodeID).1.Incarnation = entry.Incarnation := by
  rw [GetNode_found] at hget
  rw [Merge_known m entry now node hget]
  simp [hinc, membership.GetNode, mapGet_mapSet_same]

/-- The refutation scenario: local `(Suspect, inc=5)` merged with `(Alive, inc=6)`
becomes `(Alive, inc=6)`. -/
theorem Merge_higher_incarnation_wins_witness :
    ((exStore "node1" StateSuspect 5).Merge (exEntry "node1" StateAlive 6) 1).2 = true ∧
    (((exStore "node1" StateSuspect 5).Merge (exEntry "node1" StateAlive 6) 1).1.GetNode
      "node1").2 = true ∧
    (((exStore "node1" StateSuspect 5).Merge (exEntry "node1" StateAlive 6) 1).1.GetNode
      "node1").1.State = StateAlive ∧
    (((exStore "node1" StateSuspect 5).Merge (exEntry "node1" StateAlive 6) 1).1.GetNode
      "node1").1.Incarnation = 6 :=
  Merge_higher_incarnation_wins (exStore "node1" StateSuspect 5)
    (exEntry "node1" StateAlive 6) 1 (exNode "node1" StateSuspect 5) (by decide) (by decide)

/-- C2. If the store holds a node for the entry's id, the entry has the same
incarnation and a strictly more severe state (greater in Alive < Suspect < Dead < Left),
`Merge` reports a change, the stored state becomes the entry's and the stored
incarnation stays as it was. -/
theorem Merge_same_incarnation_worse_state_wins (m : membership) (entry : GossipEntry)
    (now : Time) (node : Node) (hget : m.GetNode entry.NodeID = (node, true))
    (hinc : entry.Incarnation = node.Incarnation) (hstate : entry.State > node.State) :
    (m.Merge entry now).2 = true ∧
    ((m.Merge entry now).1.GetNode entry.NodeID).2 = true ∧
    ((m.Merge entry now).1.GetNode entry.NodeID).1.State = entry.State ∧
    ((m.Merge entry now).1.GetNode entry.NodeID).1.Incarnation = node.Incarnation := by
  rw [GetNode_found] at hget
  rw [Merge_known m entry now node hget]
  simp [hinc, hstate, membership.GetNode, mapGet_mapSet_same]

/-- The scenario of the specification: after `{B, Alive, 1}`, merging `{B, Suspect, 1}`
is accepted and leaves `B` Suspect at incarnation 1. -/
theorem Merge_same_incarnation_worse_state_wins_witness :
    ((exStore "B" StateAlive 1).Merge (exEntry "B" StateSuspect 1) 1).2 = true ∧
    (((exStore "B" StateAlive 1).Merge (exEntry "B" StateSuspect 1) 1).1.GetNode "B").2
      = true ∧
    (((exStore "B" StateAlive 1).Merge (exEntry "B" StateSuspect 1) 1).1.GetNode
      "B").1.State = StateSuspect ∧
    (((exStore "B" StateAlive 1).Merge (exEntry "B" StateSuspect 1) 1).1.GetNode
      "B").1.Incarnation = 1 :=
  Merge_same_incarnation_worse_state_wins (exStore "B" StateAlive 1)
    (exEntry "B" StateSuspect 1) 1 (exNode "B" StateAlive 1) (by decide) (by decide)
    (by decide)

/-- C3. If the store holds a node for the entry's id and the entry is stale (lower
incarnation) or has the same incarnation with a state that is not strictly more severe,
`Merge` reports no change and returns the store exactly as it was. -/
theorem Merge_stale_or_not_worse_rejected (m : membership) (entry : GossipEntry)
    (now : Time) (node : Node) (hget : m.GetNode entry.NodeID = (node, true))
    (hstale : entry.Incarnation < node.Incarnation ∨
      (entry.Incarnation = node.Incarnation ∧ ¬ entry.State > node.State)) :
    (m.Merge entry now).2 = false ∧ (m.Merge entry now).1 = m ∧
    (m.Merge entry now).1.GetNode entry.NodeID = (node, true) := by
  have hget' := hget
  rw [GetNode_found] at hget
  rw [Merge_known m entry now node hget]
  have hcond : ¬ (entry.Incarnation > node.Incarnation ∨
      (entry.Incarnation = node.Incarnation ∧ entry.State > node.State)) := by
    rcases hstale with h | ⟨h1, h2⟩
    · intro hc
      rcases hc with hc | ⟨hc, _⟩ <;> omega
    · intro hc
      rcases hc with hc | ⟨_, hc⟩
      · omega
      · exact h2 hc
  rw [if_neg hcond]
  exact ⟨rfl, rfl, hget'⟩

/-- Stale rejection: merging `(Dead, inc=4)` against local `(Alive, inc=5)` changes
nothing and reports no change. -/
theorem Merge_stale_or_not_worse_rejected_witness :
    ((exStore "node1" StateAlive 5).Merge (exEntry "node1" StateDead 4) 1).2 = false ∧
    ((exStore "node1" StateAlive 5).Merge (exEntry "node1" StateDead 4) 1).1
      = exStore "node1" StateAlive 5 ∧
    ((exStore "node1" StateAlive 5).Merge (exEntry "node1" StateDead 4) 1).1.GetNode "node1"
      = (exNode "node1" StateAlive 5, true) :=
  Merge_stale_or_not_worse_rejected (exStore "node1" StateAlive 5)
    (exEntry "node1" StateDead 4) 1 (exNode "node1" StateAlive 5) (by decide)
    (Or.inl (by decide))

/-- C4. If the store holds no node for the entry's id, `Merge` reports a change and
afterwards `GetNode` finds a node with the entry's ID, Address, State and Incarnation,
for every entry state and incarnation. -/
theorem Merge_unknown_inserts (m : membership) (entry : GossipEntry) (now : Time)
    (habsent : (m.GetNode entry.NodeID).2 = false) :
    (m.Merge entry now).2 = true ∧
    ((m.Merge entry now).1.GetNode entry.NodeID).2 = true ∧
    ((m.Merge entry now).1.GetNode entry.NodeID).1.ID = entry.NodeID ∧
    ((m.Merge entry now).1.GetNode entry.NodeID).1.Address = entry.Address ∧
    ((m.Merge entry now).1.GetNode entry.NodeID).1.State = entry.State ∧
    ((m.Merge entry now).1.GetNode entry.NodeID).1.Incarnation = entry.Incarnation := by
  rw [GetNode_absent] at habsent
  rw [Merge_unknown m entry now habsent]
  simp [membership.GetNode, mapGet_mapSet_same]

/-- An entry in state Left with incarnation 0 is inserted into a store that holds only
another node. -/
theorem Merge_unknown_inserts_witness :
    ((exStore "node1" StateAlive 5).Merge (exEntry "node2" StateLeft 0) 1).2 = true ∧
    (((exStore "node1" StateAlive 5).Merge (exEntry "node2" StateLeft 0) 1).1.GetNode
      "node2").2 = true ∧
    (((exStore "node1" StateAlive 5).Merge (exEntry "node2" StateLeft 0) 1).1.GetNode
      "node2").1.ID = "node2" ∧
    (((exStore "node1" StateAlive 5).Merge (exEntry "node2" StateLeft 0) 1).1.GetNode
      "node2").1.Address = "10.0.0.1:1234" ∧
    (((exStore "node1" StateAlive 5).Merge (exEntry "node2" StateLeft 0) 1).1.GetNode
      "node2").1.State = StateLeft ∧
    (((exStore "node1" StateAlive 5).Merge (exEntry "node2" StateLeft 0) 1).1.GetNode
      "node2").1.Incarnation = 0 :=
  Merge_unknown_inserts (exStore "node1" StateAlive 5) (exEntry "node2" StateLeft 0) 1
    (by decide)

/-- One `Merge` call never lowers the rank `(Incarnation, State)` of a stored node:
the node stays in the store, its incarnation does not decrease, and at an unchanged
incarnation its state does not decrease. -/
theorem Merge_step_monotone (m : membership) (entry : GossipEntry) (now : Time)
    (id : NodeID) (node : Node) (hget : m.GetNode id = (node, true)) :
    ∃ node', (m.Merge entry now).1.GetNode id = (node', true) ∧
      node.Incarnation ≤ node'.Incarnation ∧
      (node.Incarnation = node'.Incarnation → node.State ≤ node'.State) := by
  by_cases hid : id = entry.NodeID
  · subst hid
    have hget' := (GetNode_found m _ node).1 hget
    rw [Merge_known m entry now node hget']
    by_cases hc : entry.Incarnation > node.Incarnation ∨
        (entry.Incarnation = node.Incarnation ∧ entry.State > node.State)
    · rw [if_pos hc]
      refine ⟨{ node with State := entry.State, Incarnation := entry.Incarnation }, ?_, ?_, ?_⟩
      · simp [membership.GetNode, mapGet_mapSet_same]
      · rcases hc with h | ⟨h, _⟩ <;> simp <;> omega
      · intro heq
        simp at heq
        rcases hc with h | ⟨_, h⟩
        · omega
        · exact le_of_lt h
    · rw [if_neg hc]
      exact ⟨node, hget, le_refl _, fun _ => le_refl _⟩
  · refine ⟨node, ?_, le_refl _, fun _ => le_refl _⟩
    have hget' := (GetNode_found m _ node).1 hget
    rw [GetNode_found]
    cases hlook : mapGet entry.NodeID m.nodes with
    | none =>
      rw [Merge_unknown m entry now hlook]
      simpa [mapGet_mapSet_other _ _ _ _ hid] using hget'
    | some old =>
      rw [Merge_known m entry now old hlook]
      split
      · simpa [mapGet_mapSet_other _ _ _ _ hid] using hget'
      · exact hget'

theorem mergeSeq_append (m : membership) (es₁ es₂ : List (GossipEntry × Time)) :
    mergeSeq m (es₁ ++ es₂) = mergeSeq (mergeSeq m es₁) es₂ := by
  induction es₁ generalizing m with
  | nil => rfl
  | cons hd tl ih =>
    obtain ⟨e, now⟩ := hd
    simp [mergeSeq, ih]

/-- Over any run of `Merge` calls the rank `(Incarnation, State)` of a stored node never
decreases in the lexicographic order. -/
theorem mergeSeq_monotone (m : membership) (es : List (GossipEntry × Time))
    (id : NodeID) (node : Node) (hget : m.GetNode id = (node, true)) :
    ∃ node', (mergeSeq m es).GetNode id = (node', true) ∧
      node.Incarnation ≤ node'.Incarnation ∧
      (node.Incarnation = node'.Incarnation → node.State ≤ node'.State) := by
  induction es generalizing m node with
  | nil => exact ⟨node, hget, le_refl _, fun _ => le_refl _⟩
  | cons hd tl ih =>
    obtain ⟨e, now⟩ := hd
    obtain ⟨n₁, h₁, hinc₁, hst₁⟩ := Merge_step_monotone m e now id node hget
    obtain ⟨n₂, h₂, hinc₂, hst₂⟩ := ih (m.Merge e now).1 n₁ h₁
    refine ⟨n₂, h₂, le_trans hinc₁ hinc₂, ?_⟩
    intro heq
    have e₁ : node.Incarnation = n₁.Incarnation := by omega
    have e₂ : n₁.Incarnation = n₂.Incarnation := by omega
    exact le_trans (hst₁ e₁) (hst₂ e₂)

/-- C5. For every store `m` and every finite sequence of `Merge` calls, split at any
point into the calls already made (`es₁`) and the calls that follow (`es₂`, a single
call for two consecutive observations): a node observed for `id` after `es₁` is still
there after `es₂`, its incarnation has not decreased, and if the incarnation is the same
its state has not decreased in the order Alive < Suspect < Dead < Left. -/
theorem Merge_sequence_monotone (m : membership) (es₁ es₂ : List (GossipEntry × Time))
    (id : NodeID) (node : Node) (hget : (mergeSeq m es₁).GetNode id = (node, true)) :
    ∃ node', (mergeSeq m (es₁ ++ es₂)).GetNode id = (node', true) ∧
      node.Incarnation ≤ node'.Incarnation ∧
      (node.Incarnation = node'.Incarnation → node.State ≤ node'.State) := by
  rw [mergeSeq_append]
  exact mergeSeq_monotone (mergeSeq m es₁) es₂ id node hget

/-- After `{B, Alive, 1}` and `{B, Suspect, 1}` the store holds `B` as Suspect at
incarnation 1; the next call, whatever it does, cannot lower that. -/
theorem Merge_sequence_monotone_witness :
    ∃ node', (mergeSeq NewMembership
        ([(exEntry "B" StateAlive 1, 0), (exEntry "B" StateSuspect 1, 1)] ++
          [(exEntry "B" StateAlive 1, 2)])).GetNode "B" = (node', true) ∧
      (exNode "B" StateSuspect 1).Incarnation ≤ node'.Incarnation ∧
      ((exNode "B" StateSuspect 1).Incarnation = node'.Incarnation →
        (exNode "B" StateSuspect 1).State ≤ node'.State) :=
  Merge_sequence_monotone NewMembership
    [(exEntry "B" StateAlive 1, 0), (exEntry "B" StateSuspect 1, 1)]
    [(exEntry "B" StateAlive 1, 2)] "B" (exNode "B" StateSuspect 1) (by decide)

/-- C6. `Merge` returns true exactly when the local state changed: either the id was
absent before and is present afterwards, or the id was present and its stored
`(State, Incarnation)` afterwards differs from before; and when `Merge` returns false
the store afterwards is the store before. -/
theorem Merge_changed_iff (m : membership) (entry : GossipEntry) (now : Time) :
    ((m.Merge entry now).2 = true ↔
      (((m.GetNode entry.NodeID).2 = false ∧
          ((m.Merge entry now).1.GetNode entry.NodeID).2 = true) ∨
        ((m.GetNode entry.NodeID).2 = true ∧
          ((m.Merge entry now).1.GetNode entry.NodeID).2 = true ∧
          (((m.Merge entry now).1.GetNode entry.NodeID).1.State,
            ((m.Merge entry now).1.GetNode entry.NodeID).1.Incarnation) ≠
          ((m.GetNode entry.NodeID).1.State, (m.GetNode entry.NodeID).1.Incarnation)))) ∧
    ((m.Merge entry now).2 = false → (m.Merge entry now).1 = m) := by
  cases hlook : mapGet entry.NodeID m.nodes with
  | none =>
    rw [Merge_unknown m entry now hlook]
    simp [membership.GetNode, hlook, mapGet_mapSet_same]
  | some node =>
    rw [Merge_known m entry now node hlook]
    by_cases hc : entry.Incarnation > node.Incarnation ∨
        (entry.Incarnation = node.Incarnation ∧ entry.State > node.State)
    · rw [if_pos hc]
      simp only [membership.GetNode, hlook, mapGet_mapSet_same]
      simp
      intro hst hinc
      rcases hc with h | ⟨_, h⟩
      · omega
      · exact absurd hst (ne_of_gt h)
    · rw [if_neg hc]
      simp [membership.GetNode, hlook]

/-! ## The shuffle only reorders -/

theorem swap_perm {α : Type} [DecidableEq α] (xs : List α) (i j : Nat) :
    (swap xs i j).Perm xs := by
  unfold swap
  cases hi : xs[i]? with
  | none => exact List.Perm.refl _
  | some a =>
    cases hj : xs[j]? with
    | none => exact List.Perm.refl _
    | some b =>
      simp only
      obtain ⟨hil, hia⟩ := List.getElem?_eq_some_iff.1 hi
      obtain ⟨hjl, hjb⟩ := List.getElem?_eq_some_iff.1 hj
      rw [List.perm_iff_count]
      intro c
      have hjl' : j < (xs.set i b).length := by simpa using hjl
      have hjget : (xs.set i b)[j] = b := by
        rw [List.getElem_set]
        split
        · rfl
        · exact hjb
      rw [List.count_set _ _ _ _ hjl', List.count_set _ _ _ _ hil, hjget, hia]
      have hpos : (if (a == c) = true then 1 else 0) ≤ List.count c xs := by
        split
        · rename_i hac
          have : a = c := by simpa using hac
          subst this
          exact List.count_pos_iff.2 (hia ▸ List.getElem_mem hil)
        · exact Nat.zero_le _
      omega

theorem shuffleLoop_perm {α : Type} [DecidableEq α] (rnd : Nat → Nat) (i : Nat)
    (xs : List α) : (shuffleLoop rnd i xs).Perm xs := by
  induction i generalizing xs with
  | zero => exact List.Perm.refl _
  | succ i ih => exact (ih _).trans (swap_perm xs _ _)

theorem Shuffle_perm {α : Type} [DecidableEq α] (rnd : Nat → Nat) (xs : List α) :
    (Shuffle rnd xs).Perm xs :=
  shuffleLoop_perm rnd _ xs

/-- The nodes that pass both tests of the `range` loop of `RandomNodes`. -/
theorem collectLive_eq (exclude : List NodeID) (acc vals : List Node) :
    collectLive exclude acc vals =
      acc ++ vals.filter (fun v => !isExcluded exclude v && isLiveState v.State) := by
  induction vals generalizing acc with
  | nil => simp [collectLive]
  | cons v rest ih =>
    unfold collectLive
    by_cases hex : isExcluded exclude v = true
    · simp [hex, ih]
    · by_cases hlive : isLiveState v.State = true
      · simp [hex, hlive, ih]
      · simp [hex, hlive, ih]

/-- The list `RandomNodes` cuts to length `k` is a reordering of the stored values that
pass both tests. -/
theorem randomized_perm (m : membership) (order rnd : Nat → Nat) (exclude : List NodeID) :
    (randomize rnd (collectLive exclude [] (mapRange order m.nodes))).Perm
      ((m.nodes.map Prod.snd).filter
        (fun v => !isExcluded exclude v && isLiveState v.State)) := by
  unfold randomize mapRange
  refine (Shuffle_perm rnd _).trans ?_
  rw [collectLive_eq, List.nil_append]
  exact ((Shuffle_perm order m.nodes).map Prod.snd).filter _

theorem RandomNodes_subset (m : membership) (order rnd : Nat → Nat) (k : Int)
    (exclude : List NodeID) (n : Node) (hn : n ∈ m.RandomNodes order rnd k exclude) :
    n ∈ (m.nodes.map Prod.snd).filter
      (fun v => !isExcluded exclude v && isLiveState v.State) := by
  unfold membership.RandomNodes at hn
  split at hn
  · simp at hn
  · simp only at hn
    apply (randomized_perm m order rnd exclude).subset
    split at hn
    · exact List.mem_of_mem_take hn
    · exact hn

/-- C7. Whatever the iteration order of the map and whatever the shuffle draws, every
node returned by `RandomNodes(k, exclude...)` is a value held in the store, its state is
Alive or Suspect (so neither Dead nor Left), and its ID is not in the exclude list. -/
theorem RandomNodes_only_live_unexcluded (m : membership) (order rnd : Nat → Nat) (k : Int)
    (exclude : List NodeID) (n : Node) (hn : n ∈ m.RandomNodes order rnd k exclude) :
    (∃ key, (key, n) ∈ m.nodes) ∧
    (n.State = StateAlive ∨ n.State = StateSuspect) ∧
    n.State ≠ StateDead ∧ n.State ≠ StateLeft ∧
    n.ID ∉ exclude := by
  have h := RandomNodes_subset m order rnd k exclude n hn
  simp only [List.mem_filter, List.mem_map, Bool.and_eq_true, Bool.not_eq_true',
    isExcluded, isLiveState, Bool.or_eq_true, beq_iff_eq] at h
  obtain ⟨⟨kv, hkv, rfl⟩, hex, hlive⟩ := h
  refine ⟨⟨kv.1, hkv⟩, hlive, ?_, ?_, ?_⟩
  · rcases hlive with h | h <;> rw [h] <;> decide
  · rcases hlive with h | h <;> rw [h] <;> decide
  · simpa using hex

/-- With one node in each state and nothing excluded, the Alive node is among the nodes
`RandomNodes(4)` returns, and it meets every condition. -/
theorem RandomNodes_only_live_unexcluded_witness :
    (∃ key, (key, exNode "alive" StateAlive 1) ∈ exFourStore.nodes) ∧
    ((exNode "alive" StateAlive 1).State = StateAlive ∨
      (exNode "alive" StateAlive 1).State = StateSuspect) ∧
    (exNode "alive" StateAlive 1).State ≠ StateDead ∧
    (exNode "alive" StateAlive 1).State ≠ StateLeft ∧
    (exNode "alive" StateAlive 1).ID ∉ ([] : List NodeID) :=
  RandomNodes_only_live_unexcluded exFourStore (fun _ => 0) (fun _ => 0) 4 []
    (exNode "alive" StateAlive 1) (by decide)

/-! ## Stores built by `Merge` are well formed -/

theorem mapGet_some_mem (k : String) (n : Node) (l : List (String × Node))
    (h : mapGet k l = some n) : (k, n) ∈ l := by
  induction l with
  | nil => simp [mapGet] at h
  | cons hd tl ih =>
    obtain ⟨k', v'⟩ := hd
    by_cases hk : k' = k
    · subst hk
      simp [mapGet] at h
      simp [h]
    · simp [mapGet, hk] at h
      exact List.mem_cons_of_mem _ (ih h)

theorem mapGet_none_not_mem (k : String) (l : List (String × Node))
    (h : mapGet k l = none) : k ∉ l.map Prod.fst := by
  induction l with
  | nil => simp
  | cons hd tl ih =>
    obtain ⟨k', v'⟩ := hd
    by_cases hk : k' = k
    · simp [mapGet, hk] at h
    · simp [mapGet, hk] at h
      simp only [List.map_cons, List.mem_cons, not_or]
      exact ⟨fun e => hk e.symm, ih h⟩

theorem mapSet_absent (k : String) (v : Node) (l : List (String × Node))
    (h : mapGet k l = none) : mapSet k v l = l ++ [(k, v)] := by
  induction l with
  | nil => rfl
  | cons hd tl ih =>
    obtain ⟨k', v'⟩ := hd
    by_cases hk : k' = k
    · simp [mapGet, hk] at h
    · simp [mapGet, hk] at h
      simp [mapSet, hk, ih h]

theorem mapSet_present_keys (k : String) (v old : Node) (l : List (String × Node))
    (h : mapGet k l = some old) : (mapSet k v l).map Prod.fst = l.map Prod.fst := by
  induction l with
  | nil => simp [mapGet] at h
  | cons hd tl ih =>
    obtain ⟨k', v'⟩ := hd
    by_cases hk : k' = k
    · simp [mapSet, hk]
    · simp [mapGet, hk] at h
      simp [mapSet, hk, ih h]

theorem mapSet_mem (k : String) (v : Node) (l : List (String × Node)) (kv : String × Node)
    (h : kv ∈ mapSet k v l) : kv = (k, v) ∨ kv ∈ l := by
  induction l with
  | nil => simpa [mapSet] using h
  | cons hd tl ih =>
    obtain ⟨k', v'⟩ := hd
    by_cases hk : k' = k
    · simp [mapSet, hk] at h
      rcases h with h | h
      · exact Or.inl h
      · exact Or.inr (List.mem_cons_of_mem _ h)
    · simp [mapSet, hk] at h
      rcases h with h | h
      · exact Or.inr (by simp [h])
      · rcases ih h with h' | h'
        · exact Or.inl h'
        · exact Or.inr (List.mem_cons_of_mem _ h')

theorem WellFormed_mapSet (m : membership) (k : String) (v : Node) (hwf : WellFormed m)
    (hid : v.ID = k) : WellFormed { nodes := mapSet k v m.nodes } := by
  obtain ⟨hnd, hids⟩ := hwf
  constructor
  · cases hlook : mapGet k m.nodes with
    | none =>
      simp only [mapSet_absent k v m.nodes hlook, List.map_append, List.map_cons, List.map_nil]
      rw [List.nodup_append]
      refine ⟨hnd, List.nodup_singleton _, ?_⟩
      intro a ha hb
      simp at hb
      subst hb
      exact mapGet_none_not_mem a m.nodes hlook ha
    | some old =>
      simpa only [mapSet_present_keys k v old m.nodes hlook] using hnd
  · intro kv hkv
    rcases mapSet_mem k v m.nodes kv hkv with h | h
    · subst h
      exact hid
    · exact hids kv h

theorem WellFormed_Merge (m : membership) (entry : GossipEntry) (now : Time)
    (hwf : WellFormed m) : WellFormed (m.Merge entry now).1 := by
  cases hlook : mapGet entry.NodeID m.nodes with
  | none =>
    rw [Merge_unknown m entry now hlook]
    exact WellFormed_mapSet m _ _ hwf rfl
  | some node =>
    rw [Merge_known m entry now node hlook]
    have hid : node.ID = entry.NodeID := hwf.2 _ (mapGet_some_mem _ _ _ hlook)
    split
    · exact WellFormed_mapSet m _ _ hwf hid
    · exact hwf

theorem WellFormed_mergeSeq (m : membership) (es : List (GossipEntry × Time))
    (hwf : WellFormed m) : WellFormed (mergeSeq m es) := by
  induction es generalizing m with
  | nil => exact hwf
  | cons hd tl ih =>
    obtain ⟨e, now⟩ := hd
    exact ih _ (WellFormed_Merge m e now hwf)

theorem WellFormed_new : WellFormed NewMembership := by
  constructor
  · simp [NewMembership]
  · intro kv hkv
    simp [NewMembership] at hkv

theorem WellFormed_ids_nodup (m : membership) (hwf : WellFormed m) :
    ((m.nodes.map Prod.snd).map Node.ID).Nodup := by
  have h : (m.nodes.map Prod.snd).map Node.ID = m.nodes.map Prod.fst := by
    rw [List.map_map]
    apply List.map_congr_left
    intro kv hkv
    exact hwf.2 kv hkv
  rw [h]
  exact hwf.1

theorem eligible_eq_filter (m : membership) (exclude : List NodeID) :
    eligible m exclude = (m.nodes.map Prod.snd).filter
      (fun v => !isExcluded exclude v && isLiveState v.State) := by
  unfold eligible
  apply List.filter_congr
  intro n _
  simp only [isExcluded, isLiveState]
  by_cases h1 : n.ID ∈ exclude <;> by_cases h2 : n.State = StateAlive <;>
    by_cases h3 : n.State = StateSuspect <;> simp [h1, h2, h3]

/-- C8. For every store built from the empty store by `Merge` calls, every `k ≥ 0` and
every exclude list, `RandomNodes(k, exclude...)` returns exactly `min(k, e)` nodes, where
`e` counts the stored nodes that are Alive or Suspect and not excluded; the returned
nodes have pairwise distinct IDs and are all eligible; and when `e ≤ k` the result is a
reordering of all `e` eligible nodes. -/
theorem RandomNodes_min_distinct (es : List (GossipEntry × Time)) (order rnd : Nat → Nat)
    (k : Int) (exclude : List NodeID) (hk : 0 ≤ k) :
    (((mergeSeq NewMembership es).RandomNodes order rnd k exclude).length : Int)
      = min k ((eligible (mergeSeq NewMembership es) exclude).length : Int) ∧
    (((mergeSeq NewMembership es).RandomNodes order rnd k exclude).map Node.ID).Nodup ∧
    (∀ n ∈ (mergeSeq NewMembership es).RandomNodes order rnd k exclude,
      n ∈ eligible (mergeSeq NewMembership es) exclude) ∧
    (((eligible (mergeSeq NewMembership es) exclude).length : Int) ≤ k →
      ((mergeSeq NewMembership es).RandomNodes order rnd k exclude).Perm
        (eligible (mergeSeq NewMembership es) exclude)) := by
  generalize hm : mergeSeq NewMembership es = m
  have hwf : WellFormed m := hm ▸ WellFormed_mergeSeq _ es WellFormed_new
  have hperm := randomized_perm m order rnd exclude
  rw [← eligible_eq_filter] at hperm
  have hnd : ((eligible m exclude).map Node.ID).Nodup := by
    rw [eligible_eq_filter]
    exact (WellFormed_ids_nodup m hwf).sublist ((List.filter_sublist _).map _)
  have hlen := hperm.length_eq
  refine ⟨?_, ?_, ?_, ?_⟩
  · unfold membership.RandomNodes
    split
    · rename_i hc
      rcases hc with hc | hc
      · have : k = 0 := by omega
        subst this
        simp
      · have : eligible m exclude = [] := by
          unfold eligible
          rw [List.length_eq_zero] at hc
          simp [hc]
        simp [this, hk]
    · simp only
      rw [← hlen]
      split
      · rename_i hgt
        rw [List.length_take]
        omega
      · rename_i hle
        omega
  · unfold membership.RandomNodes
    split
    · simp
    · simp only
      have hnd' := (hperm.map Node.ID).nodup_iff.2 hnd
      split
      · exact hnd'.sublist ((List.take_sublist _ _).map _)
      · exact hnd'
  · intro n hn
    rw [eligible_eq_filter]
    exact RandomNodes_subset m order rnd k exclude n hn
  · intro hle
    unfold membership.RandomNodes
    split
    · rename_i hc
      have : eligible m exclude = [] := by
        rcases hc with hc | hc
        · have h0 : (eligible m exclude).length = 0 := by omega
          exact List.length_eq_zero.1 h0
        · unfold eligible
          rw [List.length_eq_zero] at hc
          simp [hc]
      rw [this]
    · simp only
      split
      · rename_i hgt
        omega
      · exact hperm

/-- The store of the test: four nodes, two of them live, `k = 4` gives two nodes. -/
theorem RandomNodes_min_distinct_witness :
    (((mergeSeq NewMembership
        [(exEntry "alive" StateAlive 1, 0), (exEntry "dead" StateDead 1, 0),
         (exEntry "suspect" StateSuspect 1, 0), (exEntry "left" StateLeft 1, 0)]).RandomNodes
        (fun _ => 0) (fun _ => 0) 4 []).length : Int) = 2 := by
  have h := (RandomNodes_min_distinct
    [(exEntry "alive" StateAlive 1, 0), (exEntry "dead" StateDead 1, 0),
     (exEntry "suspect" StateSuspect 1, 0), (exEntry "left" StateLeft 1, 0)]
    (fun _ => 0) (fun _ => 0) 4 [] (by decide)).1
  rw [h]
  decide

/-! ## The codec -/

/-- `Encode` followed by `Decode` gives back a message whose body and envelope `gob`
encodes and decodes faithfully, provided its type has a case in `getMessageType` and
`newMessageByType` builds a zero value of the same type for that tag. -/
theorem Codec_roundtrip_of (g : Gob) (hg : GobLawful g) (msg zero : Message)
    (htag : getMessageType msg ≠ 0)
    (hnew : newMessageByType (getMessageType msg) = Except.ok zero)
    (hbody : ∃ b, g.encode msg = Except.ok b ∧ b ≠ [] ∧ g.decode zero b = Except.ok msg) :
    ∃ data, Encode g msg = Except.ok data ∧ Decode g data = Except.ok msg := by
  obtain ⟨b, henc, hne, hdec⟩ := hbody
  obtain ⟨data, henv, hdenv⟩ := hg.envelope_ok { Type_ := getMessageType msg, Payload := b }
  have hlen : b.length ≠ 0 := fun h => hne (List.length_eq_zero.1 h)
  refine ⟨data, ?_, ?_⟩
  · simp [Encode, htag, henc, hlen, henv]
  · simp [Decode, hdenv, hnew, hdec]

/-- C9 (as amended). Given a `gob` that encodes and decodes message bodies and envelopes
faithfully, for every message of the three variants the codec registers (Ping, Ack and
PingReq), with a populated or an empty gossip list, `Encode` succeeds and `Decode` of
its output succeeds and returns a message of the same variant equal to the original in
every field (header, target fields and gossip list included). -/
theorem Codec_roundtrip_registered (g : Gob) (hg : GobLawful g) :
    (∀ p : Ping, ∃ data, Encode g (Message.ping p) = Except.ok data ∧
      Decode g data = Except.ok (Message.ping p)) ∧
    (∀ a : Ack, ∃ data, Encode g (Message.ack a) = Except.ok data ∧
      Decode g data = Except.ok (Message.ack a)) ∧
    (∀ r : PingReq, ∃ data, Encode g (Message.pingReq r) = Except.ok data ∧
      Decode g data = Except.ok (Message.pingReq r)) := by
  refine ⟨fun p => ?_, fun a => ?_, fun r => ?_⟩
  · exact Codec_roundtrip_of g hg _ (Message.ping Ping.zero)
      (show MessageTypePing ≠ 0 by decide) rfl
      (hg.ping_ok p)
  · exact Codec_roundtrip_of g hg _ (Message.ack Ack.zero)
      (show MessageTypeAck ≠ 0 by decide) rfl
      (hg.ack_ok a)
  · exact Codec_roundtrip_of g hg _ (Message.pingReq PingReq.zero)
      (show MessageTypePingReq ≠ 0 by decide) rfl
      (hg.pingReq_ok r)

/-- The Ping of the round-trip test survives `Encode` and `Decode` under the reference
serializer, which is lawful. -/
theorem Codec_roundtrip_registered_witness :
    GobLawful refGob ∧
    ∃ data, Encode refGob (Message.ping exPing) = Except.ok data ∧
      Decode refGob data = Except.ok (Message.ping exPing) :=
  ⟨refGob_lawful, (Codec_roundtrip_registered refGob refGob_lawful).1 exPing⟩

/-- C9 fails as stated: a Nack is a message of one of the seven protocol variants, yet
`Encode` rejects it, even under a lawful serializer. -/
theorem Codec_roundtrip_nack_counterexample :
    GobLawful refGob ∧
    Encode refGob (Message.nack exNack) = Except.error Error.unknownMessageType ∧
    ¬ ∃ data, Encode refGob (Message.nack exNack) = Except.ok data :=
  ⟨refGob_lawful, rfl, by
    rintro ⟨data, h⟩
    have h' : Encode refGob (Message.nack exNack) = Except.error Error.unknownMessageType :=
      rfl
    rw [h'] at h
    cases h⟩

/-- C10. `Encode` returns the unknown-message-type error, and so no bytes, for every
value whose dynamic type is not one of the registered ones (a Nack, an envelope, a value
of any other type), and never returns that error for a Ping, an Ack or a PingReq,
whatever `gob` does. -/
theorem Encode_unknown_type_iff_unregistered (g : Gob) :
    (∀ n : Nack, Encode g (Message.nack n) = Except.error Error.unknownMessageType) ∧
    (∀ e : envelope, Encode g (Message.envelope e) = Except.error Error.unknownMessageType) ∧
    (∀ t : String, Encode g (Message.other t) = Except.error Error.unknownMessageType) ∧
    (∀ p : Ping, Encode g (Message.ping p) ≠ Except.error Error.unknownMessageType) ∧
    (∀ a : Ack, Encode g (Message.ack a) ≠ Except.error Error.unknownMessageType) ∧
    (∀ r : PingReq, Encode g (Message.pingReq r) ≠ Except.error Error.unknownMessageType) := by
  have key : ∀ msg : Message, getMessageType msg ≠ 0 →
      Encode g msg ≠ Except.error Error.unknownMessageType := by
    intro msg htag
    unfold Encode
    simp only [htag, if_false]
    cases g.encode msg with
    | error err => simp
    | ok payload =>
      simp only
      split
      · simp
      · cases g.encode (Message.envelope { Type_ := getMessageType msg, Payload := payload }) with
        | error err => simp
        | ok bytes => simp
  refine ⟨fun _ => rfl, fun _ => rfl, fun _ => rfl, fun p => ?_, fun a => ?_, fun r => ?_⟩
  · exact key _ (show MessageTypePing ≠ 0 by decide)
  · exact key _ (show MessageTypeAck ≠ 0 by decide)
  · exact key _ (show MessageTypePingReq ≠ 0 by decide)

/-! ## The envelope stage of `Decode` -/

/-- `Decode` hands up, unchanged, the error `gob` returns when it decodes the
envelope. -/
theorem Decode_envelope_error (g : Gob) (data : Bytes) (err : String)
    (hbad : g.decodeEnvelope data = Except.error err) :
    Decode g data = Except.error (Error.gob err) := by
  simp [Decode, hbad]

/-! ## The unimplemented operations of the store -/

/-- The pair `(m, false)` the two stubs return is what `Merge` returns for an entry
with the stored incarnation exactly when the entry's state is not above the stored
one. -/
theorem unchanged_eq_Merge_iff (m : membership) (entry : GossipEntry) (now : Time)
    (node : Node) (hget : m.GetNode entry.NodeID = (node, true))
    (hinc : entry.Incarnation = node.Incarnation) :
    (m, false) = m.Merge entry now ↔ entry.State ≤ node.State := by
  have hget' := (GetNode_found m _ node).1 hget
  rw [Merge_known m entry now node hget']
  by_cases hc : entry.Incarnation > node.Incarnation ∨
      (entry.Incarnation = node.Incarnation ∧ entry.State > node.State)
  · rw [if_pos hc]
    have hgt : entry.State > node.State := by
      rcases hc with h | ⟨_, h⟩
      · omega
      · exact h
    constructor
    · intro h
      simp at h
    · intro h
      exact absurd h (not_le_of_gt hgt)
  · rw [if_neg hc]
    constructor
    · intro _
      by_contra hlt
      exact hc (Or.inr ⟨hinc, lt_of_not_ge hlt⟩)
    · intro _
      rfl

/-- C18 (as amended). For every store and every id, known to the store or not,
`Suspect(id)` and `Dead(id)` return false and leave the store as it is. For an id the
store knows, this is the result and the effect of `Merge` of an entry
`(id, Suspect, stored incarnation)` exactly when the stored state is already Suspect or
more severe, and of an entry `(id, Dead, stored incarnation)` exactly when the stored
state is already Dead or more severe. -/
theorem Suspect_Dead_leave_store (m : membership) (id : NodeID) :
    m.Suspect id = (m, false) ∧ m.Dead id = (m, false) ∧
    (∀ (node : Node) (entry : GossipEntry) (now : Time),
      m.GetNode id = (node, true) → entry.NodeID = id → entry.State = StateSuspect →
      entry.Incarnation = node.Incarnation →
      (m.Suspect id = m.Merge entry now ↔ StateSuspect ≤ node.State)) ∧
    (∀ (node : Node) (entry : GossipEntry) (now : Time),
      m.GetNode id = (node, true) → entry.NodeID = id → entry.State = StateDead →
      entry.Incarnation = node.Incarnation →
      (m.Dead id = m.Merge entry now ↔ StateDead ≤ node.State)) := by
  refine ⟨rfl, rfl, ?_, ?_⟩
  · intro node entry now hget hid hs hinc
    subst hid
    rw [← hs]
    exact unchanged_eq_Merge_iff m entry now node hget hinc
  · intro node entry now hget hid hs hinc
    subst hid
    rw [← hs]
    exact unchanged_eq_Merge_iff m entry now node hget hinc

/-- On a store that holds B as Suspect: both stubs return false and the store, for B
and for an id the store does not know; `Suspect("B")` is what the rejected `Merge` of
`(B, Suspect, 1)` gives, since Suspect is not above the stored state; and `Dead("B")` is
not what the accepted `Merge` of `(B, Dead, 1)` gives, since Dead is above it. -/
theorem Suspect_Dead_leave_store_witness :
    ((exStore "B" StateSuspect 1).Suspect "B" = (exStore "B" StateSuspect 1, false) ∧
      (exStore "B" StateSuspect 1).Dead "B" = (exStore "B" StateSuspect 1, false)) ∧
    ((exStore "B" StateSuspect 1).Suspect "nobody" = (exStore "B" StateSuspect 1, false) ∧
      (exStore "B" StateSuspect 1).Dead "nobody" = (exStore "B" StateSuspect 1, false)) ∧
    ((exStore "B" StateSuspect 1).Suspect "B"
        = (exStore "B" StateSuspect 1).Merge (exEntry "B" StateSuspect 1) 7 ↔
      StateSuspect ≤ (exNode "B" StateSuspect 1).State) ∧
    ((exStore "B" StateSuspect 1).Dead "B"
        = (exStore "B" StateSuspect 1).Merge (exEntry "B" StateDead 1) 7 ↔
      StateDead ≤ (exNode "B" StateSuspect 1).State) :=
  ⟨⟨(Suspect_Dead_leave_store (exStore "B" StateSuspect 1) "B").1,
      (Suspect_Dead_leave_store (exStore "B" StateSuspect 1) "B").2.1⟩,
    ⟨(Suspect_Dead_leave_store (exStore "B" StateSuspect 1) "nobody").1,
      (Suspect_Dead_leave_store (exStore "B" StateSuspect 1) "nobody").2.1⟩,
    (Suspect_Dead_leave_store (exStore "B" StateSuspect 1) "B").2.2.1
      (exNode "B" StateSuspect 1) (exEntry "B" StateSuspect 1) 7 (by decide) rfl rfl rfl,
    (Suspect_Dead_leave_store (exStore "B" StateSuspect 1) "B").2.2.2
      (exNode "B" StateSuspect 1) (exEntry "B" StateDead 1) 7 (by decide) rfl rfl rfl⟩

/-- C18 fails as stated: on an Alive node `Suspect` returns false and leaves the node
Alive, whereas `Merge` of `(B, Suspect, 1)` returns true and makes it Suspect; likewise
for `Dead`. -/
theorem Suspect_not_Merge_counterexample :
    ((exStore "B" StateAlive 1).Suspect "B").2 = false ∧
    ((((exStore "B" StateAlive 1).Suspect "B").1.GetNode "B").1.State = StateAlive) ∧
    ((exStore "B" StateAlive 1).Merge (exEntry "B" StateSuspect 1) 1).2 = true ∧
    ((((exStore "B" StateAlive 1).Merge (exEntry "B" StateSuspect 1) 1).1.GetNode "B").1.State
      = StateSuspect) ∧
    (exStore "B" StateAlive 1).Suspect "B"
      ≠ (exStore "B" StateAlive 1).Merge (exEntry "B" StateSuspect 1) 1 ∧
    (exStore "B" StateAlive 1).Dead "B"
      ≠ (exStore "B" StateAlive 1).Merge (exEntry "B" StateDead 1) 1 := by
  decide

/-- C19 (as amended). `Remove(id)` leaves the store as it is: the record of every id,
that of `id` included, is unchanged, so `GetNode(id)` reports after the call what it
reported before. -/
theorem Remove_leaves_store (m : membership) (id : NodeID) :
    m.Remove id = m ∧ ∀ id' : NodeID, (m.Remove id).GetNode id' = m.GetNode id' :=
  ⟨rfl, fun _ => rfl⟩

/-- C19 fails as stated: after `Remove("node1")` the store still holds node1. -/
theorem Remove_keeps_node_counterexample :
    ((exStore "node1" StateAlive 5).Remove "node1").GetNode "node1"
      = (exNode "node1" StateAlive 5, true) := by
  decide

/-- C20 (as amended). `AllNodes` and `GetNodesByState(s)` return the empty list for every
store, and being reads they change nothing. So the length of `AllNodes` equals `Len`
only for the empty store, and `GetNodesByState(s)` is the list of stored records in
state `s` only when the store holds no record in state `s`. -/
theorem AllNodes_GetNodesByState_empty (m : membership) (s : NodeState) :
    m.AllNodes = [] ∧ m.GetNodesByState s = [] ∧
    (m.AllNodes.length = m.Len ↔ m.nodes = []) ∧
    (m.GetNodesByState s = (m.nodes.map Prod.snd).filter (fun n => decide (n.State = s)) ↔
      ∀ kv ∈ m.nodes, kv.2.State ≠ s) := by
  refine ⟨rfl, rfl, ?_, ?_⟩
  · simp only [membership.AllNodes, membership.Len, List.length_nil]
    constructor
    · intro h
      exact List.length_eq_zero.1 h.symm
    · intro h
      rw [h]
      rfl
  · simp only [membership.GetNodesByState]
    constructor
    · intro h kv hkv hs
      have hmem : kv.2 ∈ (m.nodes.map Prod.snd).filter (fun n => decide (n.State = s)) := by
        simp only [List.mem_filter, List.mem_map, decide_eq_true_eq]
        exact ⟨⟨kv, hkv, rfl⟩, hs⟩
      rw [← h] at hmem
      cases hmem
    · intro h
      symm
      rw [List.filter_eq_nil_iff]
      intro n hn
      simp only [List.mem_map] at hn
      obtain ⟨kv, hkv, rfl⟩ := hn
      simpa using h kv hkv

/-- C20 fails as stated: a store holding one Alive node has `Len` 1, yet `AllNodes`
and `GetNodesByState(Alive)` are empty. -/
theorem AllNodes_misses_node_counterexample :
    (exStore "node1" StateAlive 5).Len = 1 ∧
    (exStore "node1" StateAlive 5).AllNodes.length = 0 ∧
    ((exStore "node1" StateAlive 5).GetNode "node1").1.State = StateAlive ∧
    (exStore "node1" StateAlive 5).GetNodesByState StateAlive = [] := by
  decide

/-! ## The partition set -/

theorem kvGet_kvSet_same {β : Type} (k : String) (v : β) (l : List (String × β)) :
    kvGet k (kvSet k v l) = some v := by
  induction l with
  | nil => simp [kvSet, kvGet]
  | cons hd tl ih =>
    obtain ⟨k', v'⟩ := hd
    by_cases h : k' = k
    · simp [kvSet, kvGet, h]
    · simp [kvSet, kvGet, h, ih]

theorem kvGet_kvSet_other {β : Type} (k k' : String) (v : β) (l : List (String × β))
    (hne : k' ≠ k) : kvGet k' (kvSet k v l) = kvGet k' l := by
  induction l with
  | nil => simp [kvSet, kvGet, Ne.symm hne]
  | cons hd tl ih =>
    obtain ⟨k₀, v₀⟩ := hd
    by_cases h : k₀ = k
    · subst h
      simp [kvSet, kvGet, Ne.symm hne]
    · by_cases h' : k₀ = k'
      · subst h'
        simp [kvSet, kvGet, h]
      · simp [kvSet, kvGet, h, h', ih]

theorem kvGet_kvDelete_same {β : Type} (k : String) (l : List (String × β)) :
    kvGet k (kvDelete k l) = none := by
  induction l with
  | nil => rfl
  | cons hd tl ih =>
    obtain ⟨k', v'⟩ := hd
    by_cases h : k' = k
    · simp [kvDelete, h, ih]
    · simp [kvDelete, kvGet, h, ih]

theorem kvGet_kvDelete_other {β : Type} (k k' : String) (l : List (String × β))
    (hne : k' ≠ k) : kvGet k' (kvDelete k l) = kvGet k' l := by
  induction l with
  | nil => rfl
  | cons hd tl ih =>
    obtain ⟨k₀, v₀⟩ := hd
    by_cases h : k₀ = k
    · subst h
      simp [kvDelete, kvGet, Ne.symm hne, ih]
    · by_cases h' : k₀ = k'
      · subst h'
        simp [kvDelete, kvGet, h]
      · simp [kvDelete, kvGet, h, h', ih]

theorem unreachableIn_markUnreachable (a b x y : String)
    (parts : List (String × List (String × Bool))) :
    unreachableIn (markUnreachable a b parts) x y =
      if x = a ∧ y = b then true else unreachableIn parts x y := by
  unfold markUnreachable unreachableIn
  by_cases hx : x = a
  · subst hx
    rw [kvGet_kvSet_same]
    by_cases hy : y = b
    · subst hy
      simp [kvGet_kvSet_same]
    · simp only [hy, and_false, if_false]
      rw [kvGet_kvSet_other _ _ _ _ hy]
      cases kvGet x parts <;> simp [kvGet]
  · rw [kvGet_kvSet_other _ _ _ _ hx]
    simp [hx]

theorem unreachableIn_ensureInner (k x y : String)
    (parts : List (String × List (String × Bool))) :
    unreachableIn (ensureInner k parts) x y = unreachableIn parts x y := by
  unfold ensureInner
  cases hk : kvGet k parts with
  | some inner => rfl
  | none =>
    simp only
    unfold unreachableIn
    by_cases hx : x = k
    · subst hx
      rw [kvGet_kvSet_same, hk]
      simp [kvGet]
    · rw [kvGet_kvSet_other _ _ _ _ hx]

theorem unreachableIn_partitionStep (f addr x y : String)
    (parts : List (String × List (String × Bool))) :
    unreachableIn (partitionStep f parts addr) x y =
      if (x = f ∧ y = addr) ∨ (x = addr ∧ y = f) then true else unreachableIn parts x y := by
  unfold partitionStep
  rw [unreachableIn_markUnreachable, unreachableIn_ensureInner, unreachableIn_markUnreachable]
  by_cases h1 : x = addr ∧ y = f <;> by_cases h2 : x = f ∧ y = addr <;> simp [h1, h2]

theorem unreachableIn_foldl_partitionStep (f x y : String) (addrs : List String)
    (parts : List (String × List (String × Bool))) :
    unreachableIn (addrs.foldl (partitionStep f) parts) x y = true ↔
      (∃ addr ∈ addrs, (x = f ∧ y = addr) ∨ (x = addr ∧ y = f)) ∨
        unreachableIn parts x y = true := by
  induction addrs generalizing parts with
  | nil => simp
  | cons addr rest ih =>
    rw [List.foldl_cons, ih, unreachableIn_partitionStep]
    by_cases h : (x = f ∧ y = addr) ∨ (x = addr ∧ y = f)
    · rw [if_pos h]
      constructor
      · intro _
        exact Or.inl ⟨addr, List.mem_cons_self _ _, h⟩
      · intro _
        exact Or.inr rfl
    · rw [if_neg h]
      constructor
      · rintro (⟨a', ha', h'⟩ | h')
        · exact Or.inl ⟨a', List.mem_cons_of_mem _ ha', h'⟩
        · exact Or.inr h'
      · rintro (⟨a', ha', h'⟩ | h')
        · rcases List.mem_cons.1 ha' with heq | hmem
          · subst heq
            exact absurd h' h
          · exact Or.inl ⟨a', hmem, h'⟩
        · exact Or.inr h'

/-- After `Partition(from, unreachable...)` a pair is cut off exactly when it joins
`from` with one of the listed addresses, in either direction, or was cut off before. -/
theorem partitioned_Partition (n : TestNetwork) (f : String) (addrs : List String)
    (x y : String) :
    (n.Partition f addrs).partitioned x y = true ↔
      (∃ addr ∈ addrs, (x = f ∧ y = addr) ∨ (x = addr ∧ y = f)) ∨ n.partitioned x y = true := by
  unfold TestNetwork.Partition TestNetwork.partitioned
  simp only
  rw [unreachableIn_foldl_partitionStep, unreachableIn_ensureInner]

theorem unreachableIn_healOne (a b x y : String)
    (parts : List (String × List (String × Bool))) :
    unreachableIn (healOne a b parts) x y =
      if x = a ∧ y = b then false else unreachableIn parts x y := by
  unfold healOne
  cases ha : kvGet a parts with
  | none =>
    simp only
    by_cases h : x = a ∧ y = b
    · obtain ⟨rfl, rfl⟩ := h
      simp [unreachableIn, ha]
    · simp [h]
  | some inner =>
    simp only
    unfold unreachableIn
    by_cases hx : x = a
    · subst hx
      rw [kvGet_kvSet_same, ha]
      by_cases hy : y = b
      · subst hy
        simp [kvGet_kvDelete_same]
      · simp [hy, kvGet_kvDelete_other _ _ _ hy]
    · rw [kvGet_kvSet_other _ _ _ _ hx]
      simp [hx]

/-- After `Heal(a, b)` the pair `(a, b)` is connected in both directions and every
other pair is as before. -/
theorem partitioned_Heal (n : TestNetwork) (a b x y : String) :
    (n.Heal a b).partitioned x y =
      if (x = a ∧ y = b) ∨ (x = b ∧ y = a) then false else n.partitioned x y := by
  unfold TestNetwork.Heal TestNetwork.partitioned
  simp only
  rw [unreachableIn_healOne, unreachableIn_healOne]
  by_cases h1 : x = a ∧ y = b <;> by_cases h2 : x = b ∧ y = a <;> simp [h1, h2]

/-! ## Sending -/

theorem send_error_nil (n : TestNetwork) (f t : String) (msg : List Nat) (draw : Rat)
    (now : Time) : (n.send f t msg draw now).2 = none := by
  unfold TestNetwork.send
  split
  · rfl
  · split
    · rfl
    · split
      · rfl
      · split
        · rfl
        · split <;> rfl

theorem send_heap_only (n : TestNetwork) (f t : String) (msg : List Nat) (draw : Rat)
    (now : Time) :
    (n.send f t msg draw now).1.transports = n.transports ∧
    (n.send f t msg draw now).1.partitions = n.partitions := by
  unfold TestNetwork.send
  split
  · exact ⟨rfl, rfl⟩
  · split
    · exact ⟨rfl, rfl⟩
    · split
      · exact ⟨rfl, rfl⟩
      · split
        · exact ⟨rfl, rfl⟩
        · split <;> exact ⟨rfl, rfl⟩

theorem send_partitioned (n : TestNetwork) (f t : String) (msg : List Nat) (draw : Rat)
    (now : Time) (hcut : n.partitioned f t = true) :
    n.send f t msg draw now = (n, none) := by
  unfold TestNetwork.send
  rw [if_pos hcut]

theorem set_self {α : Type} (l : List α) (i : Nat) (a : α) (h : l[i]? = some a) :
    l.set i a = l := by
  apply List.ext_getElem?
  intro j
  rw [List.getElem?_set]
  split
  · rename_i hij
    subst hij
    rw [h]
    split
    · rfl
    · rename_i hlt
      exact absurd (List.getElem?_eq_some_iff.1 h).1 hlt
  · rfl

/-- What `send` does once the partition check, the registry lookup and the running
check have passed: the message is lost when the draw says so, and is handed to the
non-blocking channel send otherwise. -/
theorem send_reaches_target (n : TestNetwork) (f t : String) (msg : List Nat) (draw : Rat)
    (now : Time) (ptr : Nat) (target : TestTransport)
    (hcut : n.partitioned f t = false) (hreg : kvGet t n.transports = some ptr)
    (hheap : n.heap[ptr]? = some target) (hrun : target.running = true) :
    n.send f t msg draw now =
      if target.dropRate > 0 ∧ draw < target.dropRate then (n, none)
      else (n.store ptr
              (target.withQueue (target.msgCh.trySend (NetworkMessage.mk msg f now))),
            none) := by
  unfold TestNetwork.send
  simp [hcut, hreg, hheap, hrun]

/-- The message reaches the queue: every check of `send` passes and there is room. -/
theorem send_delivered (n : TestNetwork) (f t : String) (msg : List Nat) (draw : Rat)
    (now : Time) (ptr : Nat) (target : TestTransport)
    (hcut : n.partitioned f t = false) (hreg : kvGet t n.transports = some ptr)
    (hheap : n.heap[ptr]? = some target) (hrun : target.running = true)
    (hdraw : ¬ (target.dropRate > 0 ∧ draw < target.dropRate))
    (hroom : target.msgCh.buf.length < target.msgCh.cap) :
    n.send f t msg draw now =
      (n.store ptr (target.withQueue (target.msgCh.push (NetworkMessage.mk msg f now))),
        none) := by
  rw [send_reaches_target n f t msg draw now ptr target hcut hreg hheap hrun, if_neg hdraw]
  simp [Chan.trySend, Chan.push, hroom]

/-- The message is dropped: some check of `send` fails, or the queue is full. -/
theorem send_dropped (n : TestNetwork) (f t : String) (msg : List Nat) (draw : Rat)
    (now : Time)
    (hno : ¬ ∃ ptr target, n.partitioned f t = false ∧ kvGet t n.transports = some ptr ∧
      n.heap[ptr]? = some target ∧ target.running = true ∧
      ¬ (target.dropRate > 0 ∧ draw < target.dropRate) ∧
      target.msgCh.buf.length < target.msgCh.cap) :
    n.send f t msg draw now = (n, none) := by
  cases hcut : n.partitioned f t with
  | true => exact send_partitioned n f t msg draw now hcut
  | false =>
    cases hreg : kvGet t n.transports with
    | none => simp [TestNetwork.send, hcut, hreg]
    | some ptr =>
      cases hheap : n.heap[ptr]? with
      | none => simp [TestNetwork.send, hcut, hreg, hheap]
      | some target =>
        cases hrun : target.running with
        | false => simp [TestNetwork.send, hcut, hreg, hheap, hrun]
        | true =>
          rw [send_reaches_target n f t msg draw now ptr target hcut hreg hheap hrun]
          by_cases hdraw : target.dropRate > 0 ∧ draw < target.dropRate
          · rw [if_pos hdraw]
          · rw [if_neg hdraw]
            have hfull : ¬ target.msgCh.buf.length < target.msgCh.cap := fun hroom =>
              hno ⟨ptr, target, hcut, hreg, hheap, hrun, hdraw, hroom⟩
            have hsame : target.withQueue (target.msgCh.trySend (NetworkMessage.mk msg f now))
                = target := by
              simp [Chan.trySend, TestTransport.withQueue, hfull]
            rw [hsame]
            simp [TestNetwork.store, set_self n.heap ptr target hheap]

/-- C13. For every transport that is running, every destination address and every
payload, `SendTo` returns no error, whatever `send` does with the message: a partitioned
destination, an unregistered address, a stopped target, a lost draw and a full queue all
give the sender a nil error. -/
theorem SendTo_running_no_error (n : TestNetwork) (t : Nat) (tr : TestTransport)
    (addr : String) (msg : List Nat) (draw : Rat) (now : Time)
    (ht : n.heap[t]? = some tr) (hrun : tr.running = true) :
    TestTransport.SendTo n t addr msg draw now = some (n.send tr.addr addr msg draw now) ∧
    ∃ n', TestTransport.SendTo n t addr msg draw now = some (n', none) := by
  have h : TestTransport.SendTo n t addr msg draw now
      = some (n.send tr.addr addr msg draw now) := by
    simp [TestTransport.SendTo, ht, hrun]
  refine ⟨h, (n.send tr.addr addr msg draw now).1, ?_⟩
  rw [h, ← send_error_nil n tr.addr addr msg draw now]

/-- The test `MessageToUnknownAddrIsDropped`: node1 is running, nothing is registered at
"unknown", and `SendTo` returns nil with the network unchanged. -/
theorem SendTo_running_no_error_witness :
    TestTransport.SendTo exNet 0 "unknown" exHello 0 1 = some (exNet, none) := by
  have h := (SendTo_running_no_error exNet 0 (exTransport "node1") "unknown" exHello 0 1
    (by decide) rfl).1
  rw [h]
  decide

theorem store_getElem?_self (n : TestNetwork) (ptr : Nat) (old new : TestTransport)
    (hheap : n.heap[ptr]? = some old) : (n.store ptr new).heap[ptr]? = some new := by
  have hlt := (List.getElem?_eq_some_iff.1 hheap).1
  simp [TestNetwork.store, List.getElem?_set, hlt]

theorem store_ne_self (n : TestNetwork) (ptr : Nat) (old new : TestTransport)
    (hheap : n.heap[ptr]? = some old) (hne : new ≠ old) : n.store ptr new ≠ n := by
  intro h
  have h1 := store_getElem?_self n ptr old new hheap
  rw [h, hheap] at h1
  exact hne (Option.some.inj h1).symm

/-- C16. A `send` from `from_` to `to_` with payload `p` always returns nil. It appends
a message to the inbound queue of the transport registered at `to_` exactly when `to_`
is not unreachable from `from_`, a transport is registered at `to_`, that transport is
running, the loss draw does not drop the message and the queue is not full; the message
appended carries `Payload = p` and `From = from_`. In every other case the network, and
so every queue, is left as it was. -/
theorem send_delivers_iff (n : TestNetwork) (from_ to_ : String) (p : List Nat) (draw : Rat)
    (now : Time) :
    (n.send from_ to_ p draw now).2 = none ∧
    ((∃ ptr target, (n.partitioned from_ to_ = false ∧ kvGet to_ n.transports = some ptr ∧
          n.heap[ptr]? = some target ∧ target.running = true ∧
          ¬ (target.dropRate > 0 ∧ draw < target.dropRate) ∧
          target.msgCh.buf.length < target.msgCh.cap) ∧
        (n.send from_ to_ p draw now).1
          = n.store ptr (target.withQueue (target.msgCh.push (NetworkMessage.mk p from_ now))) ∧
        ((n.send from_ to_ p draw now).1.heap[ptr]?).map (fun tr => tr.msgCh.buf)
          = some (target.msgCh.buf ++ [{ Payload := p, From := from_, Time := now }]) ∧
        (n.send from_ to_ p draw now).1 ≠ n) ∨
      ((¬ ∃ ptr target, n.partitioned from_ to_ = false ∧ kvGet to_ n.transports = some ptr ∧
          n.heap[ptr]? = some target ∧ target.running = true ∧
          ¬ (target.dropRate > 0 ∧ draw < target.dropRate) ∧
          target.msgCh.buf.length < target.msgCh.cap) ∧
        (n.send from_ to_ p draw now).1 = n)) := by
  refine ⟨send_error_nil n from_ to_ p draw now, ?_⟩
  by_cases hyes : ∃ ptr target, n.partitioned from_ to_ = false ∧
      kvGet to_ n.transports = some ptr ∧
      n.heap[ptr]? = some target ∧ target.running = true ∧
      ¬ (target.dropRate > 0 ∧ draw < target.dropRate) ∧
      target.msgCh.buf.length < target.msgCh.cap
  · left
    obtain ⟨ptr, target, hcut, hreg, hheap, hrun, hdraw, hroom⟩ := hyes
    refine ⟨ptr, target, ⟨hcut, hreg, hheap, hrun, hdraw, hroom⟩, ?_⟩
    rw [send_delivered n from_ to_ p draw now ptr target hcut hreg hheap hrun hdraw hroom]
    refine ⟨rfl, ?_, ?_⟩
    · simp only
      rw [store_getElem?_self n ptr target _ hheap]
      rfl
    · apply store_ne_self n ptr target _ hheap
      intro h
      have hbuf := congrArg (fun tr => tr.msgCh.buf.length) h
      simp [TestTransport.withQueue, Chan.push] at hbuf
  · right
    exact ⟨hyes, by rw [send_dropped n from_ to_ p draw now hyes]⟩

/-- The test `SendReceive`: node1 sends "hello" to node2, and node2's queue then holds
one message with that payload, from "node1". -/
theorem send_delivers_iff_witness :
    ((exNet.send "node1" "node2" exHello 0 1).1.heap[1]?).map (fun tr => tr.msgCh.buf)
      = some [{ Payload := exHello, From := "node1", Time := 1 }] := by
  rcases (send_delivers_iff exNet "node1" "node2" exHello 0 1).2 with
    ⟨ptr, target, ⟨_, hreg, hheap, _⟩, _, hbuf, _⟩ | ⟨hno, _⟩
  · have hptr : kvGet "node2" exNet.transports = some 1 := by decide
    rw [hptr] at hreg
    cases hreg
    have htarget : exNet.heap[1]? = some (exTransport "node2") := by decide
    rw [htarget] at hheap
    cases hheap
    exact hbuf
  · exact absurd ⟨1, exTransport "node2", by decide, by decide, by decide, rfl, by decide,
      by decide⟩ hno

/-! ## Partition and Heal -/

theorem step_partitions_of_not_partition_heal (n : TestNetwork) (op : Op)
    (hp : ∀ f u, op ≠ Op.partition f u) (hh : ∀ a b, op ≠ Op.heal a b) :
    (step n op).partitions = n.partitions := by
  cases op with
  | newTransport addr => rfl
  | start t =>
    simp only [step, TestTransport.Start]
    cases n.heap[t]? <;> rfl
  | stop t =>
    simp only [step, TestTransport.Stop]
    cases n.heap[t]? <;> rfl
  | setDropRate t rate =>
    simp only [step, TestTransport.SetDropRate]
    cases n.heap[t]? <;> rfl
  | setLatency t d =>
    simp only [step, TestTransport.SetLatency]
    cases n.heap[t]? <;> rfl
  | partition f u => exact absurd rfl (hp f u)
  | heal a b => exact absurd rfl (hh a b)
  | send f t msg draw now => exact (send_heap_only n f t msg draw now).2
  | sendTo t addr msg draw now =>
    simp only [step, TestTransport.SendTo]
    cases n.heap[t]? with
    | none => rfl
    | some tr =>
      simp only
      split
      · rfl
      · exact (send_heap_only n tr.addr addr msg draw now).2

theorem step_keeps_partitioned (n : TestNetwork) (op : Op) (x y : String)
    (hh : ∀ a b, op ≠ Op.heal a b) (hcut : n.partitioned x y = true) :
    (step n op).partitioned x y = true := by
  by_cases hp : ∃ f u, op = Op.partition f u
  · obtain ⟨f, u, rfl⟩ := hp
    exact (partitioned_Partition n f u x y).2 (Or.inr hcut)
  · have hp' : ∀ f u, op ≠ Op.partition f u := fun f u h => hp ⟨f, u, h⟩
    unfold TestNetwork.partitioned at hcut ⊢
    rw [step_partitions_of_not_partition_heal n op hp' hh]
    exact hcut

theorem run_keeps_partitioned (n : TestNetwork) (ops : List Op) (x y : String)
    (hh : ∀ op ∈ ops, ∀ a b, op ≠ Op.heal a b) (hcut : n.partitioned x y = true) :
    (run n ops).partitioned x y = true := by
  induction ops generalizing n with
  | nil => exact hcut
  | cons op rest ih =>
    simp only [run, List.foldl_cons]
    apply ih
    · intro op' hop'
      exact hh op' (List.mem_cons_of_mem _ hop')
    · exact step_keeps_partitioned n op x y (hh op (List.mem_cons_self _ _)) hcut

/-- C14. After `Partition(a, b1, ..., bn)`, and after any further calls none of which is
a `Heal`, a message sent from `a` to any `bi` and a message sent from `bi` to `a` are
both dropped: `send` returns nil and leaves the whole network, hence the receiving
transport's inbound queue, as it was. -/
theorem Partition_drops_both_directions (n : TestNetwork) (a : String) (bs : List String)
    (ops : List Op) (b : String) (msg : List Nat) (draw : Rat) (now : Time)
    (hb : b ∈ bs) (hops : ∀ op ∈ ops, ∀ x y, op ≠ Op.heal x y) :
    (run (n.Partition a bs) ops).send a b msg draw now = (run (n.Partition a bs) ops, none) ∧
    (run (n.Partition a bs) ops).send b a msg draw now = (run (n.Partition a bs) ops, none) := by
  have hab : (n.Partition a bs).partitioned a b = true :=
    (partitioned_Partition n a bs a b).2 (Or.inl ⟨b, hb, Or.inl ⟨rfl, rfl⟩⟩)
  have hba : (n.Partition a bs).partitioned b a = true :=
    (partitioned_Partition n a bs b a).2 (Or.inl ⟨b, hb, Or.inr ⟨rfl, rfl⟩⟩)
  exact ⟨send_partitioned _ a b msg draw now (run_keeps_partitioned _ ops a b hops hab),
    send_partitioned _ b a msg draw now (run_keeps_partitioned _ ops b a hops hba)⟩

/-- The test `PartitionIsBidirectional`: after `Partition("node1", "node2")` both sends
leave the network unchanged. -/
theorem Partition_drops_both_directions_witness :
    (run (exNet.Partition "node1" ["node2"]) []).send "node1" "node2" exHello 0 1
      = (run (exNet.Partition "node1" ["node2"]) [], none) ∧
    (run (exNet.Partition "node1" ["node2"]) []).send "node2" "node1" exHello 0 1
      = (run (exNet.Partition "node1" ["node2"]) [], none) :=
  Partition_drops_both_directions exNet "node1" ["node2"] [] "node2" exHello 0 1
    (by decide) (by intro op hop; cases hop)

/-- C15. After `Heal(a, b)` neither `b` is unreachable from `a` nor `a` from `b`, the
reachability of every other ordered pair is as before, and the transports are
untouched. So after `Partition(a, b)` followed by `Heal(a, b)` the partition check of
`send` passes in both directions, and a message between `a` and `b` whose target is
registered, running, not hit by the loss draw and not full is appended to the target's
queue. -/
theorem Heal_restores_connectivity (n : TestNetwork) (a b : String) :
    (n.Heal a b).partitioned a b = false ∧ (n.Heal a b).partitioned b a = false ∧
    (∀ x y : String, ¬ (x = a ∧ y = b) → ¬ (x = b ∧ y = a) →
      (n.Heal a b).partitioned x y = n.partitioned x y) ∧
    ((n.Heal a b).heap = n.heap ∧ (n.Heal a b).transports = n.transports) ∧
    (((n.Partition a [b]).Heal a b).partitioned a b = false ∧
      ((n.Partition a [b]).Heal a b).partitioned b a = false) ∧
    (∀ (msg : List Nat) (draw : Rat) (now : Time) (ptr : Nat) (target : TestTransport),
      kvGet b n.transports = some ptr → n.heap[ptr]? = some target → target.running = true →
      ¬ (target.dropRate > 0 ∧ draw < target.dropRate) →
      target.msgCh.buf.length < target.msgCh.cap →
      (((n.Partition a [b]).Heal a b).send a b msg draw now).1.heap
        = n.heap.set ptr (target.withQueue (target.msgCh.push (NetworkMessage.mk msg a now)))) ∧
    (∀ (msg : List Nat) (draw : Rat) (now : Time) (ptr : Nat) (target : TestTransport),
      kvGet a n.transports = some ptr → n.heap[ptr]? = some target → target.running = true →
      ¬ (target.dropRate > 0 ∧ draw < target.dropRate) →
      target.msgCh.buf.length < target.msgCh.cap →
      (((n.Partition a [b]).Heal a b).send b a msg draw now).1.heap
        = n.heap.set ptr (target.withQueue (target.msgCh.push (NetworkMessage.mk msg b now)))) := by
  have hab : ∀ m : TestNetwork, (m.Heal a b).partitioned a b = false := by
    intro m
    rw [partitioned_Heal]
    simp
  have hba : ∀ m : TestNetwork, (m.Heal a b).partitioned b a = false := by
    intro m
    rw [partitioned_Heal]
    simp
  refine ⟨hab n, hba n, ?_, ⟨rfl, rfl⟩, ⟨hab _, hba _⟩, ?_, ?_⟩
  · intro x y h1 h2
    rw [partitioned_Heal]
    simp [h1, h2]
  · intro msg draw now ptr target hreg hheap hrun hdraw hroom
    rw [send_delivered ((n.Partition a [b]).Heal a b) a b msg draw now ptr target (hab _)
      hreg hheap hrun hdraw hroom]
    rfl
  · intro msg draw now ptr target hreg hheap hrun hdraw hroom
    rw [send_delivered ((n.Partition a [b]).Heal a b) b a msg draw now ptr target (hba _)
      hreg hheap hrun hdraw hroom]
    rfl

/-- The test `HealRestoresConnectivity`: after `Partition("node1", "node2")` and
`Heal("node1", "node2")`, "hello" sent from node1 lands in node2's queue. -/
theorem Heal_restores_connectivity_witness :
    (((exNet.Partition "node1" ["node2"]).Heal "node1" "node2").send "node1" "node2"
        exHello 0 1).1.heap
      = exNet.heap.set 1 ((exTransport "node2").withQueue
          ((exTransport "node2").msgCh.push (NetworkMessage.mk exHello "node1" 1))) :=
  (Heal_restores_connectivity exNet "node1" "node2").2.2.2.2.2.1 exHello 0 1 1
    (exTransport "node2") (by decide) (by decide) rfl (by decide) (by decide)

/-! ## Transports that are not running -/

theorem isRunning_store (n : TestNetwork) (p t : Nat) (old new : TestTransport)
    (hp : n.heap[p]? = some old) :
    TestTransport.isRunning (n.store p new) t =
      if p = t then some new.running else TestTransport.isRunning n t := by
  have hlt := (List.getElem?_eq_some_iff.1 hp).1
  unfold TestTransport.isRunning TestNetwork.store
  simp only
  rw [List.getElem?_set]
  by_cases h : p = t
  · subst h
    simp [hlt]
  · simp [h]

theorem isRunning_send (n : TestNetwork) (f to_ : String) (msg : List Nat) (draw : Rat)
    (now : Time) (t : Nat) :
    TestTransport.isRunning (n.send f to_ msg draw now).1 t = TestTransport.isRunning n t := by
  unfold TestNetwork.send
  split
  · rfl
  · split
    · rfl
    · rename_i ptr hreg
      split
      · rfl
      · rename_i target hheap
        split
        · rfl
        · split
          · rfl
          · simp only
            rw [isRunning_store n ptr t target _ hheap]
            split
            · rename_i hpt
              subst hpt
              simp [TestTransport.isRunning, hheap, TestTransport.withQueue]
            · rfl

/-- A transport that is not running stays so under every call other than `Start` on
that transport. -/
theorem step_keeps_stopped (n : TestNetwork) (op : Op) (t : Nat) (hop : op ≠ Op.start t)
    (hstopped : TestTransport.isRunning n t = some false) :
    TestTransport.isRunning (step n op) t = some false := by
  cases op with
  | newTransport addr =>
    unfold TestTransport.isRunning at hstopped ⊢
    simp only [step, TestNetwork.NewTransport]
    cases hget : n.heap[t]? with
    | none => simp [hget] at hstopped
    | some tr =>
      have hlt := (List.getElem?_eq_some_iff.1 hget).1
      rw [List.getElem?_append_left hlt]
      exact hstopped
  | start t' =>
    have hne : t' ≠ t := fun h => hop (by rw [h])
    simp only [step, TestTransport.Start]
    cases hget : n.heap[t']? with
    | none => exact hstopped
    | some tr =>
      simp only [Option.map_some', Option.getD_some]
      rw [isRunning_store n t' t tr _ hget, if_neg hne]
      exact hstopped
  | stop t' =>
    simp only [step, TestTransport.Stop]
    cases hget : n.heap[t']? with
    | none => exact hstopped
    | some tr =>
      simp only [Option.map_some', Option.getD_some]
      rw [isRunning_store n t' t tr _ hget]
      split
      · rfl
      · exact hstopped
  | setDropRate t' rate =>
    simp only [step, TestTransport.SetDropRate]
    cases hget : n.heap[t']? with
    | none => exact hstopped
    | some tr =>
      simp only [Option.getD_some]
      rw [isRunning_store n t' t tr _ hget]
      split
      · rename_i h
        subst h
        simpa [TestTransport.isRunning, hget] using hstopped
      · exact hstopped
  | setLatency t' d =>
    simp only [step, TestTransport.SetLatency]
    cases hget : n.heap[t']? with
    | none => exact hstopped
    | some tr =>
      simp only [Option.getD_some]
      rw [isRunning_store n t' t tr _ hget]
      split
      · rename_i h
        subst h
        simpa [TestTransport.isRunning, hget] using hstopped
      · exact hstopped
  | partition f u => exact hstopped
  | heal a b => exact hstopped
  | send f to_ msg draw now =>
    simp only [step]
    rw [isRunning_send]
    exact hstopped
  | sendTo t' addr msg draw now =>
    simp only [step, TestTransport.SendTo]
    cases hget : n.heap[t']? with
    | none => exact hstopped
    | some tr =>
      simp only
      split
      · exact hstopped
      · simp only [Option.map_some', Option.getD_some]
        rw [isRunning_send]
        exact hstopped

theorem run_keeps_stopped (n : TestNetwork) (ops : List Op) (t : Nat)
    (hops : ∀ op ∈ ops, op ≠ Op.start t)
    (hstopped : TestTransport.isRunning n t = some false) :
    TestTransport.isRunning (run n ops) t = some false := by
  induction ops generalizing n with
  | nil => exact hstopped
  | cons op rest ih =>
    simp only [run, List.foldl_cons]
    apply ih
    · intro op' hop'
      exact hops op' (List.mem_cons_of_mem _ hop')
    · exact step_keeps_stopped n op t (hops op (List.mem_cons_self _ _)) hstopped

theorem isRunning_after_NewTransport (n : TestNetwork) (addr : String) :
    TestTransport.isRunning (n.NewTransport addr).1 (n.NewTransport addr).2 = some false := by
  simp [TestTransport.isRunning, TestNetwork.NewTransport]

theorem isRunning_after_Stop (n n' : TestNetwork) (t : Nat) (e : Option TransportError)
    (h : TestTransport.Stop n t = some (n', e)) :
    TestTransport.isRunning n' t = some false := by
  unfold TestTransport.Stop at h
  cases hget : n.heap[t]? with
  | none => simp [hget] at h
  | some tr =>
    simp only [hget, Option.some.injEq, Prod.mk.injEq] at h
    rw [← h.1, isRunning_store n t t tr _ hget]
    simp

theorem SendTo_of_stopped (n : TestNetwork) (t : Nat) (addr : String) (msg : List Nat)
    (draw : Rat) (now : Time) (hstopped : TestTransport.isRunning n t = some false) :
    TestTransport.SendTo n t addr msg draw now
      = some (n, some TransportError.ErrTransportStopped) := by
  unfold TestTransport.isRunning at hstopped
  unfold TestTransport.SendTo
  cases hget : n.heap[t]? with
  | none => simp [hget] at hstopped
  | some tr =>
    simp only [hget, Option.map_some', Option.some.injEq] at hstopped
    simp [hstopped]

/-- C12. Let `n` be the network right after the transport `t` was created by
`NewTransport`, or right after a `Stop` on `t`, and let `ops` be any further calls none
of which is a `Start` on `t` (so `t` was never started, or was stopped after its last
`Start`). Then for every destination and payload `SendTo` on `t` returns
`ErrTransportStopped` and leaves the network, hence every inbound queue, unchanged. -/
theorem SendTo_not_running_fails (n : TestNetwork) (t : Nat) (ops : List Op) (addr : String)
    (msg : List Nat) (draw : Rat) (now : Time)
    (hbase : (∃ n₀ addr₀, n = (TestNetwork.NewTransport n₀ addr₀).1 ∧
        t = (TestNetwork.NewTransport n₀ addr₀).2) ∨
      (∃ n₀ e, TestTransport.Stop n₀ t = some (n, e)))
    (hops : ∀ op ∈ ops, op ≠ Op.start t) :
    TestTransport.SendTo (run n ops) t addr msg draw now
      = some (run n ops, some TransportError.ErrTransportStopped) := by
  apply SendTo_of_stopped
  apply run_keeps_stopped n ops t hops
  rcases hbase with ⟨n₀, addr₀, rfl, rfl⟩ | ⟨n₀, e, hstop⟩
  · exact isRunning_after_NewTransport n₀ addr₀
  · exact isRunning_after_Stop n₀ n t e hstop

/-- The tests `SendBeforeStartFails` and `SendAfterStopFails`: a transport just created,
and one started and then stopped, both refuse to send. -/
theorem SendTo_not_running_fails_witness :
    TestTransport.SendTo (run (NewTestNetwork.NewTransport "node1").1 []) 0 "node2" exHello 0 1
      = some (run (NewTestNetwork.NewTransport "node1").1 [],
          some TransportError.ErrTransportStopped) ∧
    TestTransport.SendTo (run exStopped []) 0 "node2" exHello 0 1
      = some (run exStopped [], some TransportError.ErrTransportStopped) :=
  ⟨SendTo_not_running_fails (NewTestNetwork.NewTransport "node1").1 0 [] "node2" exHello 0 1
      (Or.inl ⟨NewTestNetwork, "node1", rfl, rfl⟩) (by intro op hop; cases hop),
    SendTo_not_running_fails exStopped 0 [] "node2" exHello 0 1
      (Or.inr ⟨run NewTestNetwork [Op.newTransport "node1", Op.start 0], none, by decide⟩)
      (by intro op hop; cases hop)⟩

/-! ## The inbound queues are bounded -/

theorem mem_store (n : TestNetwork) (p : Nat) (new tr : TestTransport)
    (h : tr ∈ (n.store p new).heap) : tr ∈ n.heap ∨ tr = new :=
  List.mem_or_eq_of_mem_set h

theorem trySend_bounded (ch : Chan) (msg : NetworkMessage) (hcap : ch.cap = 100)
    (hlen : ch.buf.length ≤ 100) :
    (ch.trySend msg).cap = 100 ∧ (ch.trySend msg).buf.length ≤ 100 := by
  unfold Chan.trySend
  split
  · rename_i hroom
    simp only [List.length_append, List.length_singleton]
    exact ⟨hcap, by omega⟩
  · exact ⟨hcap, hlen⟩

theorem send_keeps_bounded (n : TestNetwork) (f to_ : String) (msg : List Nat) (draw : Rat)
    (now : Time)
    (hinv : ∀ tr ∈ n.heap, tr.msgCh.cap = 100 ∧ tr.msgCh.buf.length ≤ 100) :
    ∀ tr ∈ (n.send f to_ msg draw now).1.heap,
      tr.msgCh.cap = 100 ∧ tr.msgCh.buf.length ≤ 100 := by
  unfold TestNetwork.send
  split
  · exact hinv
  · split
    · exact hinv
    · rename_i ptr hreg
      split
      · exact hinv
      · rename_i target hheap
        split
        · exact hinv
        · split
          · exact hinv
          · intro tr htr
            rcases mem_store n ptr _ tr htr with h | h
            · exact hinv tr h
            · subst h
              have htarget : target ∈ n.heap := List.getElem?_mem hheap
              exact trySend_bounded target.msgCh _ (hinv target htarget).1
                (hinv target htarget).2

/-- One call keeps every queue within the capacity of 100. -/
theorem step_keeps_bounded (n : TestNetwork) (op : Op)
    (hinv : ∀ tr ∈ n.heap, tr.msgCh.cap = 100 ∧ tr.msgCh.buf.length ≤ 100) :
    ∀ tr ∈ (step n op).heap, tr.msgCh.cap = 100 ∧ tr.msgCh.buf.length ≤ 100 := by
  have hupd : ∀ (t : Nat) (old new : TestTransport), n.heap[t]? = some old →
      new.msgCh = old.msgCh →
      ∀ tr ∈ (n.store t new).heap, tr.msgCh.cap = 100 ∧ tr.msgCh.buf.length ≤ 100 := by
    intro t old new hget hch tr htr
    rcases mem_store n t new tr htr with h | h
    · exact hinv tr h
    · subst h
      rw [hch]
      exact hinv old (List.getElem?_mem hget)
  cases op with
  | newTransport addr =>
    intro tr htr
    simp only [step, TestNetwork.NewTransport, List.mem_append, List.mem_singleton] at htr
    rcases htr with h | h
    · exact hinv tr h
    · subst h
      exact ⟨rfl, Nat.zero_le _⟩
  | start t =>
    simp only [step, TestTransport.Start]
    cases hget : n.heap[t]? with
    | none => exact hinv
    | some old => exact hupd t old _ hget rfl
  | stop t =>
    simp only [step, TestTransport.Stop]
    cases hget : n.heap[t]? with
    | none => exact hinv
    | some old => exact hupd t old _ hget rfl
  | setDropRate t rate =>
    simp only [step, TestTransport.SetDropRate]
    cases hget : n.heap[t]? with
    | none => exact hinv
    | some old => exact hupd t old _ hget rfl
  | setLatency t d =>
    simp only [step, TestTransport.SetLatency]
    cases hget : n.heap[t]? with
    | none => exact hinv
    | some old => exact hupd t old _ hget rfl
  | partition f u => exact hinv
  | heal a b => exact hinv
  | send f to_ msg draw now => exact send_keeps_bounded n f to_ msg draw now hinv
  | sendTo t addr msg draw now =>
    simp only [step, TestTransport.SendTo]
    cases hget : n.heap[t]? with
    | none => exact hinv
    | some old =>
      simp only
      split
      · exact hinv
      · exact send_keeps_bounded n old.addr addr msg draw now hinv

theorem run_keeps_bounded (n : TestNetwork) (ops : List Op)
    (hinv : ∀ tr ∈ n.heap, tr.msgCh.cap = 100 ∧ tr.msgCh.buf.length ≤ 100) :
    ∀ tr ∈ (run n ops).heap, tr.msgCh.cap = 100 ∧ tr.msgCh.buf.length ≤ 100 := by
  induction ops generalizing n with
  | nil => exact hinv
  | cons op rest ih =>
    simp only [run, List.foldl_cons]
    exact ih (step n op) (step_keeps_bounded n op hinv)

/-- C17. In every state reached from `NewTestNetwork` by any sequence of calls
(`NewTransport`, `Start`, `Stop`, `SetDropRate`, `SetLatency`, `Partition`, `Heal`, `send`
and `SendTo`) every transport's channel has capacity 100 and holds at most 100 messages;
and in every network a `send` to a registered transport whose queue is full returns nil
and leaves the network, hence that queue, unchanged. -/
theorem queue_bounded_and_full_drops :
    (∀ (ops : List Op), ∀ tr ∈ (run NewTestNetwork ops).heap,
      tr.msgCh.cap = 100 ∧ tr.msgCh.buf.length ≤ 100) ∧
    (∀ (n : TestNetwork) (from_ to_ : String) (msg : List Nat) (draw : Rat) (now : Time)
      (ptr : Nat) (target : TestTransport),
      kvGet to_ n.transports = some ptr → n.heap[ptr]? = some target →
      target.msgCh.cap ≤ target.msgCh.buf.length →
      n.send from_ to_ msg draw now = (n, none)) := by
  constructor
  · intro ops
    apply run_keeps_bounded
    intro tr htr
    simp [NewTestNetwork] at htr
  · intro n f to_ msg draw now ptr target hreg hheap hfull
    apply send_dropped
    rintro ⟨ptr', target', _, hreg', hheap', _, _, hroom⟩
    rw [hreg] at hreg'
    cases hreg'
    rw [hheap] at hheap'
    cases hheap'
    omega

set_option maxRecDepth 100000 in
/-- After a hundred unread sends node2's queue holds a hundred messages, and the next
send changes nothing. -/
theorem queue_bounded_and_full_drops_witness :
    (exFull.heap[1]?).map (fun tr => tr.msgCh.buf.length) = some 100 ∧
    exFull.send "node1" "node2" exHello 0 1 = (exFull, none) :=
  ⟨by decide,
    queue_bounded_and_full_drops.2 exFull "node1" "node2" exHello 0 1 1
      ((exTransport "node2").withQueue
        { cap := 100, buf := List.replicate 100 (NetworkMessage.mk exHello "node1" 1) })
      (by decide) (by decide) (by decide)⟩

/-! ## Stop and the message channel -/

/-- `Stop` leaves the channel of the transport exactly as it was. -/
theorem Stop_keeps_channel (n n' : TestNetwork) (t : Nat) (e : Option TransportError)
    (h : TestTransport.Stop n t = some (n', e)) :
    TestTransport.Messages n' t = TestTransport.Messages n t := by
  unfold TestTransport.Stop at h
  cases hget : n.heap[t]? with
  | none => simp [hget] at h
  | some tr =>
    simp only [hget, Option.some.injEq, Prod.mk.injEq] at h
    rw [← h.1]
    unfold TestTransport.Messages
    rw [store_getElem?_self n t tr _ hget, hget]
    rfl

/-- C21. The code at the failing input: node1 is created, started and stopped. `Stop`
succeeds, and the channel `Messages` returns afterwards is still open and empty, so a
receive on it blocks. -/
theorem Stop_leaves_channel_open :
    TestTransport.Stop (run NewTestNetwork [Op.newTransport "node1", Op.start 0]) 0
      = some (exStopped, none) ∧
    TestTransport.Messages exStopped 0 = some { cap := 100, buf := [], closed := false } ∧
    (TestTransport.Messages exStopped 0).map Chan.recv = some RecvResult.blocks := by
  decide

/-! ## More on `Merge` -/

/-- `Merge` does not touch the record of an id other than the entry's. -/
theorem Merge_other_id (m : membership) (entry : GossipEntry) (now : Time) (id : NodeID)
    (hid : id ≠ entry.NodeID) : (m.Merge entry now).1.GetNode id = m.GetNode id := by
  cases hlook : mapGet entry.NodeID m.nodes with
  | none =>
    rw [Merge_unknown m entry now hlook]
    simp [membership.GetNode, mapGet_mapSet_other _ _ _ _ hid]
  | some old =>
    rw [Merge_known m entry now old hlook]
    split
    · simp [membership.GetNode, mapGet_mapSet_other _ _ _ _ hid]
    · rfl

/-- A `Merge` for an id the store knows changes at most the State and the Incarnation
of its record. -/
theorem Merge_known_record (m : membership) (entry : GossipEntry) (now : Time) (node : Node)
    (hget : m.GetNode entry.NodeID = (node, true)) :
    ∃ node', (m.Merge entry now).1.GetNode entry.NodeID = (node', true) ∧
      node' = { node with State := node'.State, Incarnation := node'.Incarnation } := by
  have hget' := (GetNode_found m _ node).1 hget
  rw [Merge_known m entry now node hget']
  split
  · exact ⟨{ node with State := entry.State, Incarnation := entry.Incarnation },
      by simp [membership.GetNode, mapGet_mapSet_same], rfl⟩
  · exact ⟨node, hget, rfl⟩

/-- C23. The code at the failing input: the store holds node1 as `(Alive, inc=5)` with
`LastUpdated = 0`; `Merge` of `(Alive, inc=6)` at time 9 is accepted and raises the
incarnation to 6, yet `LastUpdated` is still 0. -/
theorem Merge_update_keeps_LastUpdated :
    ((exStore "node1" StateAlive 5).GetNode "node1").1.LastUpdated = 0 ∧
    ((exStore "node1" StateAlive 5).Merge (exEntry "node1" StateAlive 6) 9).2 = true ∧
    (((exStore "node1" StateAlive 5).Merge (exEntry "node1" StateAlive 6) 9).1.GetNode
      "node1").1.Incarnation = 6 ∧
    (((exStore "node1" StateAlive 5).Merge (exEntry "node1" StateAlive 6) 9).1.GetNode
      "node1").1.LastUpdated = 0 := by
  decide

/-- C27. `Merge(entry)` leaves the record of every id other than the entry's as it was
and removes no id from the store; and when the entry's id is already held, the record
afterwards differs from the record before in at most State and Incarnation: ID,
Address, Metadata and LastUpdated are as they were, whatever Address the entry
carries. -/
theorem Merge_frame (m : membership) (entry : GossipEntry) (now : Time) :
    (∀ id : NodeID, id ≠ entry.NodeID → (m.Merge entry now).1.GetNode id = m.GetNode id) ∧
    (∀ id : NodeID, (m.GetNode id).2 = true → ((m.Merge entry now).1.GetNode id).2 = true) ∧
    (∀ node : Node, m.GetNode entry.NodeID = (node, true) →
      ∃ node', (m.Merge entry now).1.GetNode entry.NodeID = (node', true) ∧
        node'.ID = node.ID ∧ node'.Address = node.Address ∧
        node'.Metadata = node.Metadata ∧ node'.LastUpdated = node.LastUpdated) := by
  refine ⟨fun id hid => Merge_other_id m entry now id hid, ?_, ?_⟩
  · intro id hfound
    by_cases hid : id = entry.NodeID
    · subst hid
      cases hlook : mapGet entry.NodeID m.nodes with
      | none =>
        rw [Merge_unknown m entry now hlook]
        simp [membership.GetNode, mapGet_mapSet_same]
      | some node =>
        have hget := (GetNode_found m _ node).2 hlook
        obtain ⟨node', h', _⟩ := Merge_known_record m entry now node hget
        rw [h']
    · rw [Merge_other_id m entry now id hid]
      exact hfound
  · intro node hget
    obtain ⟨node', h', heq⟩ := Merge_known_record m entry now node hget
    refine ⟨node', h', ?_, ?_, ?_, ?_⟩ <;> rw [heq]

/-- An accepted entry for node1 that names another address changes State and
Incarnation only: the stored Address stays "10.0.0.1:1234". -/
theorem Merge_frame_witness :
    ∃ node', ((exStore "node1" StateAlive 5).Merge exMovedEntry 9).1.GetNode exMovedEntry.NodeID
        = (node', true) ∧
      node'.ID = (exNode "node1" StateAlive 5).ID ∧
      node'.Address = (exNode "node1" StateAlive 5).Address ∧
      node'.Metadata = (exNode "node1" StateAlive 5).Metadata ∧
      node'.LastUpdated = (exNode "node1" StateAlive 5).LastUpdated :=
  (Merge_frame (exStore "node1" StateAlive 5) exMovedEntry 9).2.2
    (exNode "node1" StateAlive 5) (by decide)

/-! ## Channels stay open -/

theorem send_keeps_open (n : TestNetwork) (f to_ : String) (msg : List Nat) (draw : Rat)
    (now : Time) (hinv : ∀ tr ∈ n.heap, tr.msgCh.closed = false) :
    ∀ tr ∈ (n.send f to_ msg draw now).1.heap, tr.msgCh.closed = false := by
  unfold TestNetwork.send
  split
  · exact hinv
  · split
    · exact hinv
    · rename_i ptr hreg
      split
      · exact hinv
      · rename_i target hheap
        split
        · exact hinv
        · split
          · exact hinv
          · intro tr htr
            rcases mem_store n ptr _ tr htr with h | h
            · exact hinv tr h
            · subst h
              have htarget := hinv target (List.getElem?_mem hheap)
              unfold TestTransport.withQueue Chan.trySend
              split
              · exact htarget
              · exact htarget

theorem step_keeps_open (n : TestNetwork) (op : Op)
    (hinv : ∀ tr ∈ n.heap, tr.msgCh.closed = false) :
    ∀ tr ∈ (step n op).heap, tr.msgCh.closed = false := by
  have hupd : ∀ (t : Nat) (old new : TestTransport), n.heap[t]? = some old →
      new.msgCh = old.msgCh → ∀ tr ∈ (n.store t new).heap, tr.msgCh.closed = false := by
    intro t old new hget hch tr htr
    rcases mem_store n t new tr htr with h | h
    · exact hinv tr h
    · subst h
      rw [hch]
      exact hinv old (List.getElem?_mem hget)
  cases op with
  | newTransport addr =>
    intro tr htr
    simp only [step, TestNetwork.NewTransport, List.mem_append, List.mem_singleton] at htr
    rcases htr with h | h
    · exact hinv tr h
    · subst h
      rfl
  | start t =>
    simp only [step, TestTransport.Start]
    cases hget : n.heap[t]? with
    | none => exact hinv
    | some old => exact hupd t old _ hget rfl
  | stop t =>
    simp only [step, TestTransport.Stop]
    cases hget : n.heap[t]? with
    | none => exact hinv
    | some old => exact hupd t old _ hget rfl
  | setDropRate t rate =>
    simp only [step, TestTransport.SetDropRate]
    cases hget : n.heap[t]? with
    | none => exact hinv
    | some old => exact hupd t old _ hget rfl
  | setLatency t d =>
    simp only [step, TestTransport.SetLatency]
    cases hget : n.heap[t]? with
    | none => exact hinv
    | some old => exact hupd t old _ hget rfl
  | partition f u => exact hinv
  | heal a b => exact hinv
  | send f to_ msg draw now => exact send_keeps_open n f to_ msg draw now hinv
  | sendTo t addr msg draw now =>
    simp only [step, TestTransport.SendTo]
    cases hget : n.heap[t]? with
    | none => exact hinv
    | some old =>
      simp only
      split
      · exact hinv
      · exact send_keeps_open n old.addr addr msg draw now hinv

/-- No sequence of calls closes a channel: in every state reached from
`NewTestNetwork`, after a `Stop` as at any other time, every transport's channel is
open. -/
theorem run_keeps_open (ops : List Op) :
    ∀ tr ∈ (run NewTestNetwork ops).heap, tr.msgCh.closed = false := by
  have key : ∀ (n : TestNetwork), (∀ tr ∈ n.heap, tr.msgCh.closed = false) →
      ∀ tr ∈ (run n ops).heap, tr.msgCh.closed = false := by
    induction ops with
    | nil => exact fun n hinv => hinv
    | cons op rest ih =>
      intro n hinv
      simp only [run, List.foldl_cons]
      exact ih (step n op) (step_keeps_open n op hinv)
  apply key
  intro tr htr
  simp [NewTestNetwork] at htr

/-! ## Left and higher incarnations -/

/-- An entry for a known id that is neither newer nor more severe is rejected. -/
theorem Merge_not_above_rejected (m : membership) (entry : GossipEntry) (now : Time)
    (node : Node) (hget : m.GetNode entry.NodeID = (node, true))
    (hinc : entry.Incarnation ≤ node.Incarnation) (hst : entry.State ≤ node.State) :
    m.Merge entry now = (m, false) := by
  rw [Merge_known m entry now node ((GetNode_found m _ node).1 hget)]
  have hcond : ¬ (entry.Incarnation > node.Incarnation ∨
      (entry.Incarnation = node.Incarnation ∧ entry.State > node.State)) := by
    rintro (h | ⟨_, h⟩)
    · omega
    · exact absurd hst (not_le_of_gt h)
  rw [if_neg hcond]

/-- C22 (as amended). Left is terminal within an incarnation: if the store holds a node
for `id` in state Left, then after any sequence of `Merge` calls in which every entry
for `id` carries an incarnation not above the stored one and one of the four declared
states (at most Left), the record of `id` is exactly as before, so its state is still
Left. Entries for other ids are unrestricted. -/
theorem Left_terminal_within_incarnation (m : membership) (id : NodeID) (node : Node)
    (es : List (GossipEntry × Time)) (hget : m.GetNode id = (node, true))
    (hleft : node.State = StateLeft)
    (hes : ∀ x ∈ es, x.1.NodeID = id →
      x.1.Incarnation ≤ node.Incarnation ∧ x.1.State ≤ StateLeft) :
    (mergeSeq m es).GetNode id = (node, true) ∧
    ((mergeSeq m es).GetNode id).1.State = StateLeft := by
  have key : (mergeSeq m es).GetNode id = (node, true) := by
    induction es generalizing m with
    | nil => exact hget
    | cons hd tl ih =>
      obtain ⟨e, now⟩ := hd
      simp only [mergeSeq]
      apply ih
      · by_cases hid : e.NodeID = id
        · subst hid
          obtain ⟨hinc, hst⟩ := hes (e, now) (List.mem_cons_self _ _) rfl
          rw [Merge_not_above_rejected m e now node hget hinc (by rw [hleft]; exact hst)]
          exact hget
        · rw [Merge_other_id m e now id (fun h => hid h.symm)]
          exact hget
      · intro x hx
        exact hes x (List.mem_cons_of_mem _ hx)
  exact ⟨key, by rw [key]; exact hleft⟩

/-- A Left node stays Left under a stale Alive entry and a same-incarnation Dead
entry for it, and an entry for another node. -/
theorem Left_terminal_within_incarnation_witness :
    (mergeSeq (exStore "B" StateLeft 5)
        [(exEntry "B" StateAlive 4, 1), (exEntry "B" StateDead 5, 2),
         (exEntry "C" StateAlive 9, 3)]).GetNode "B" = (exNode "B" StateLeft 5, true) ∧
    ((mergeSeq (exStore "B" StateLeft 5)
        [(exEntry "B" StateAlive 4, 1), (exEntry "B" StateDead 5, 2),
         (exEntry "C" StateAlive 9, 3)]).GetNode "B").1.State = StateLeft :=
  Left_terminal_within_incarnation (exStore "B" StateLeft 5) "B" (exNode "B" StateLeft 5)
    [(exEntry "B" StateAlive 4, 1), (exEntry "B" StateDead 5, 2),
     (exEntry "C" StateAlive 9, 3)] (by decide) rfl (by decide)

/-- C22 fails as stated: a node held as `(Left, inc=1)` becomes Alive when an entry
`(Alive, inc=2)` for it is merged. -/
theorem Left_not_terminal_counterexample :
    ((exStore "B" StateLeft 1).GetNode "B").1.State = StateLeft ∧
    ((exStore "B" StateLeft 1).Merge (exEntry "B" StateAlive 2) 1).2 = true ∧
    (((exStore "B" StateLeft 1).Merge (exEntry "B" StateAlive 2) 1).1.GetNode "B").1.State
      = StateAlive ∧
    (((exStore "B" StateLeft 1).Merge (exEntry "B" StateAlive 2) 1).1.GetNode "B").1.State
      ≠ StateLeft := by
  decide

/-! ## Tags on the decoding side -/

theorem newMessageByType_cases (t : MessageType) :
    (t = MessageTypePing ∧ newMessageByType t = Except.ok (Message.ping Ping.zero)) ∨
    (t = MessageTypeAck ∧ newMessageByType t = Except.ok (Message.ack Ack.zero)) ∨
    (t = MessageTypePingReq ∧
      newMessageByType t = Except.ok (Message.pingReq PingReq.zero)) ∨
    ((t ≠ MessageTypePing ∧ t ≠ MessageTypePingReq ∧ t ≠ MessageTypeAck) ∧
      newMessageByType t = Except.error Error.unknownMessageType) := by
  unfold newMessageByType
  by_cases h1 : t = MessageTypePing
  · exact Or.inl ⟨h1, by subst h1; rfl⟩
  · by_cases h2 : t = MessageTypeAck
    · exact Or.inr (Or.inl ⟨h2, by subst h2; rfl⟩)
    · by_cases h3 : t = MessageTypePingReq
      · exact Or.inr (Or.inr (Or.inl ⟨h3, by subst h3; rfl⟩))
      · exact Or.inr (Or.inr (Or.inr ⟨⟨h1, h3, h2⟩, by simp [h1, h2, h3]⟩))

/-- C24. For every tag `t`, `newMessageByType(t)` succeeds exactly when `t` is the ping,
ping-req or ack tag, and `getMessageType` of the message it builds is `t`. `Decode`
picks the value to decode into from the envelope's tag alone and hands the payload to
`gob` only afterwards; and for every other tag (0 and the declared nack, sync,
sync-response and leave tags among them) `Decode` of an envelope that `gob` decodes
fails with the unknown-message-type error. -/
theorem Decode_selects_by_tag (g : Gob) :
    (∀ t : MessageType, (∃ msg, newMessageByType t = Except.ok msg) ↔
      (t = MessageTypePing ∨ t = MessageTypePingReq ∨ t = MessageTypeAck)) ∧
    (∀ (t : MessageType) (msg : Message), newMessageByType t = Except.ok msg →
      getMessageType msg = t) ∧
    (∀ (data : Bytes) (env : envelope) (target : Message),
      g.decodeEnvelope data = Except.ok env →
      newMessageByType env.Type_ = Except.ok target →
      Decode g data =
        match g.decode target env.Payload with
        | Except.error err => Except.error (Error.gob err)
        | Except.ok msg => Except.ok msg) ∧
    (∀ (data : Bytes) (env : envelope), g.decodeEnvelope data = Except.ok env →
      ¬ (env.Type_ = MessageTypePing ∨ env.Type_ = MessageTypePingReq ∨
        env.Type_ = MessageTypeAck) →
      Decode g data = Except.error Error.unknownMessageType) ∧
    (∀ t : MessageType, t = 0 ∨ t = MessageTypeNack ∨ t = MessageTypeSync ∨
        t = MessageTypeSyncResponse ∨ t = MessageTypeLeave →
      newMessageByType t = Except.error Error.unknownMessageType) := by
  refine ⟨?_, ?_, ?_, ?_, ?_⟩
  · intro t
    rcases newMessageByType_cases t with ⟨h, hn⟩ | ⟨h, hn⟩ | ⟨h, hn⟩ | ⟨⟨h1, h2, h3⟩, hn⟩
    · exact ⟨fun _ => Or.inl h, fun _ => ⟨_, hn⟩⟩
    · exact ⟨fun _ => Or.inr (Or.inr h), fun _ => ⟨_, hn⟩⟩
    · exact ⟨fun _ => Or.inr (Or.inl h), fun _ => ⟨_, hn⟩⟩
    · constructor
      · rintro ⟨msg, hmsg⟩
        rw [hn] at hmsg
        cases hmsg
      · rintro (h | h | h)
        · exact absurd h h1
        · exact absurd h h2
        · exact absurd h h3
  · intro t msg hok
    rcases newMessageByType_cases t with ⟨h, hn⟩ | ⟨h, hn⟩ | ⟨h, hn⟩ | ⟨_, hn⟩
    · rw [hn] at hok
      cases hok
      exact h.symm
    · rw [hn] at hok
      cases hok
      exact h.symm
    · rw [hn] at hok
      cases hok
      exact h.symm
    · rw [hn] at hok
      cases hok
  · intro data env target henv hnew
    simp only [Decode, henv, hnew]
  · intro data env henv hno
    rcases newMessageByType_cases env.Type_ with ⟨h, _⟩ | ⟨h, _⟩ | ⟨h, _⟩ | ⟨_, hn⟩
    · exact absurd (Or.inl h) hno
    · exact absurd (Or.inr (Or.inr h)) hno
    · exact absurd (Or.inr (Or.inl h)) hno
    · simp only [Decode, henv, hn]
  · intro t ht
    rcases ht with h | h | h | h | h <;> subst h <;> rfl

/-- An envelope that carries the nack tag is well formed for the reference serializer,
and `Decode` rejects it with the unknown-message-type error. -/
theorem Decode_selects_by_tag_witness :
    Decode refGob (refBytes exNackEnvelope) = Except.error Error.unknownMessageType :=
  (Decode_selects_by_tag refGob).2.2.2.1 (refBytes exNackEnvelope) exNackEnvelope
    (refParse_refBytes exNackEnvelope) (by decide)

/-! ## The partition set is symmetric -/

theorem step_keeps_symmetric (n : TestNetwork) (op : Op)
    (hsym : ∀ a b : String, n.partitioned a b = n.partitioned b a) :
    ∀ a b : String, (step n op).partitioned a b = (step n op).partitioned b a := by
  intro a b
  by_cases hp : ∃ f u, op = Op.partition f u
  · obtain ⟨f, u, rfl⟩ := hp
    have hiff : (n.Partition f u).partitioned a b = true ↔
        (n.Partition f u).partitioned b a = true := by
      rw [partitioned_Partition, partitioned_Partition, hsym a b]
      constructor
      · rintro (⟨addr, hmem, h⟩ | h)
        · exact Or.inl ⟨addr, hmem, h.symm.imp (fun h' => ⟨h'.2, h'.1⟩) (fun h' => ⟨h'.2, h'.1⟩)⟩
        · exact Or.inr h
      · rintro (⟨addr, hmem, h⟩ | h)
        · exact Or.inl ⟨addr, hmem, h.symm.imp (fun h' => ⟨h'.2, h'.1⟩) (fun h' => ⟨h'.2, h'.1⟩)⟩
        · exact Or.inr h
    exact Bool.eq_iff_iff.2 hiff
  · by_cases hh : ∃ x y, op = Op.heal x y
    · obtain ⟨x, y, rfl⟩ := hh
      simp only [step]
      rw [partitioned_Heal, partitioned_Heal, hsym a b]
      by_cases h1 : a = x ∧ b = y <;> by_cases h2 : a = y ∧ b = x <;>
        simp [h1, h2, and_comm]
    · have hp' : ∀ f u, op ≠ Op.partition f u := fun f u h => hp ⟨f, u, h⟩
      have hh' : ∀ x y, op ≠ Op.heal x y := fun x y h => hh ⟨x, y, h⟩
      unfold TestNetwork.partitioned
      rw [step_partitions_of_not_partition_heal n op hp' hh']
      exact hsym a b

/-- C25. In every network state reached from `NewTestNetwork` by any sequence of calls
(`Partition` and `Heal`, and every other call of the simulator as well) the partition
set is symmetric: `b` is unreachable from `a` exactly when `a` is unreachable from
`b`. -/
theorem partition_set_symmetric (ops : List Op) (a b : String) :
    (run NewTestNetwork ops).partitioned a b = (run NewTestNetwork ops).partitioned b a := by
  have key : ∀ (n : TestNetwork), (∀ x y : String, n.partitioned x y = n.partitioned y x) →
      ∀ x y : String, (run n ops).partitioned x y = (run n ops).partitioned y x := by
    induction ops with
    | nil => exact fun n hsym => hsym
    | cons op rest ih =>
      intro n hsym
      simp only [run, List.foldl_cons]
      exact ih (step n op) (step_keeps_symmetric n op hsym)
  exact key NewTestNetwork (fun _ _ => rfl) a b

/-! ## Merging is taking the maximum -/

theorem lexLe_refl (a : Nat × Int) : lexLe a a :=
  Or.inr ⟨rfl, le_refl _⟩

theorem lexLe_trans (a b c : Nat × Int) (hab : lexLe a b) (hbc : lexLe b c) : lexLe a c := by
  unfold lexLe at *
  omega

theorem lexLe_antisymm (a b : Nat × Int) (hab : lexLe a b) (hba : lexLe b a) : a = b := by
  unfold lexLe at *
  apply Prod.ext <;> omega

/-- One `Merge` for a known id: either the entry is accepted, it ranks at least as high
as the old record and the new record has its rank, or the entry is rejected, it ranks
no higher than the record and the record stays. -/
theorem Merge_known_rank (m : membership) (entry : GossipEntry) (now : Time) (node : Node)
    (hget : m.GetNode entry.NodeID = (node, true)) :
    ∃ node', (m.Merge entry now).1.GetNode entry.NodeID = (node', true) ∧
      (((node'.Incarnation, node'.State) = (entry.Incarnation, entry.State) ∧
          lexLe (node.Incarnation, node.State) (entry.Incarnation, entry.State)) ∨
        (node' = node ∧
          lexLe (entry.Incarnation, entry.State) (node.Incarnation, node.State))) := by
  have hget' := (GetNode_found m _ node).1 hget
  rw [Merge_known m entry now node hget']
  by_cases hc : entry.Incarnation > node.Incarnation ∨
      (entry.Incarnation = node.Incarnation ∧ entry.State > node.State)
  · rw [if_pos hc]
    refine ⟨{ node with State := entry.State, Incarnation := entry.Incarnation }, ?_,
      Or.inl ⟨rfl, ?_⟩⟩
    · simp [membership.GetNode, mapGet_mapSet_same]
    · rcases hc with h | ⟨h1, h2⟩
      · exact Or.inl h
      · exact Or.inr ⟨h1.symm, le_of_lt h2⟩
  · rw [if_neg hc]
    refine ⟨node, hget, Or.inr ⟨rfl, ?_⟩⟩
    by_cases hlt : entry.Incarnation < node.Incarnation
    · exact Or.inl hlt
    · have heq : entry.Incarnation = node.Incarnation := by
        have : ¬ entry.Incarnation > node.Incarnation := fun h => hc (Or.inl h)
        omega
      refine Or.inr ⟨heq, ?_⟩
      by_contra hgt
      exact hc (Or.inr ⟨heq, lt_of_not_ge hgt⟩)

/-- Merging entries for a known id leaves the maximum of the old rank and the ranks of
the entries. -/
theorem mergeSeq_known_max (m : membership) (id : NodeID) (node : Node)
    (es : List (GossipEntry × Time)) (hget : m.GetNode id = (node, true))
    (hid : ∀ x ∈ es, x.1.NodeID = id) :
    ∃ node', (mergeSeq m es).GetNode id = (node', true) ∧
      ((node'.Incarnation, node'.State) = (node.Incarnation, node.State) ∨
        ∃ x ∈ es, (x.1.Incarnation, x.1.State) = (node'.Incarnation, node'.State)) ∧
      lexLe (node.Incarnation, node.State) (node'.Incarnation, node'.State) ∧
      ∀ x ∈ es, lexLe (x.1.Incarnation, x.1.State) (node'.Incarnation, node'.State) := by
  induction es generalizing m node with
  | nil =>
    exact ⟨node, hget, Or.inl rfl, lexLe_refl _, fun x hx => absurd hx (List.not_mem_nil _)⟩
  | cons hd tl ih =>
    obtain ⟨e, now⟩ := hd
    have he : e.NodeID = id := hid (e, now) (List.mem_cons_self _ _)
    subst he
    obtain ⟨n₁, hn₁, hstep⟩ := Merge_known_rank m e now node hget
    obtain ⟨n₂, hn₂, hfrom, hge, hall⟩ := ih (m.Merge e now).1 n₁ hn₁
      (fun x hx => hid x (List.mem_cons_of_mem _ hx))
    have he₁ : lexLe (e.Incarnation, e.State) (n₁.Incarnation, n₁.State) := by
      rcases hstep with ⟨h, _⟩ | ⟨h, hle⟩
      · rw [h]
        exact lexLe_refl _
      · rw [h]
        exact hle
    have hnode₁ : lexLe (node.Incarnation, node.State) (n₁.Incarnation, n₁.State) := by
      rcases hstep with ⟨h, hle⟩ | ⟨h, _⟩
      · rw [h]
        exact hle
      · rw [h]
        exact lexLe_refl _
    refine ⟨n₂, hn₂, ?_, lexLe_trans _ _ _ hnode₁ hge, ?_⟩
    · rcases hfrom with h | ⟨x, hx, h⟩
      · rcases hstep with ⟨h', _⟩ | ⟨h', _⟩
        · exact Or.inr ⟨(e, now), List.mem_cons_self _ _, by rw [h, h']⟩
        · exact Or.inl (by rw [h, h'])
      · exact Or.inr ⟨x, List.mem_cons_of_mem _ hx, h⟩
    · intro x hx
      rcases List.mem_cons.1 hx with h | h
      · subst h
        exact lexLe_trans _ _ _ he₁ hge
      · exact hall x h

/-- Merging a non-empty sequence of entries for an id the store does not hold leaves
the maximum of their ranks. -/
theorem mergeSeq_absent_max (m : membership) (id : NodeID) (es : List (GossipEntry × Time))
    (hne : es ≠ []) (habsent : (m.GetNode id).2 = false) (hid : ∀ x ∈ es, x.1.NodeID = id) :
    ∃ node, (mergeSeq m es).GetNode id = (node, true) ∧
      (∃ x ∈ es, (x.1.Incarnation, x.1.State) = (node.Incarnation, node.State)) ∧
      ∀ x ∈ es, lexLe (x.1.Incarnation, x.1.State) (node.Incarnation, node.State) := by
  cases es with
  | nil => exact absurd rfl hne
  | cons hd tl =>
    obtain ⟨e, now⟩ := hd
    have he : e.NodeID = id := hid (e, now) (List.mem_cons_self _ _)
    subst he
    have hlook := (GetNode_absent m _).1 habsent
    have hfirst : (m.Merge e now).1.GetNode e.NodeID =
        ({ ID := e.NodeID, Address := e.Address, State := e.State,
           Incarnation := e.Incarnation, Metadata := NodeMetadata.zero,
           LastUpdated := now }, true) := by
      rw [Merge_unknown m e now hlook]
      simp [membership.GetNode, mapGet_mapSet_same]
    obtain ⟨n₂, hn₂, hfrom, hge, hall⟩ := mergeSeq_known_max (m.Merge e now).1 e.NodeID _ tl
      hfirst (fun x hx => hid x (List.mem_cons_of_mem _ hx))
    refine ⟨n₂, hn₂, ?_, ?_⟩
    · rcases hfrom with h | ⟨x, hx, h⟩
      · exact ⟨(e, now), List.mem_cons_self _ _, h.symm⟩
      · exact ⟨x, List.mem_cons_of_mem _ hx, h⟩
    · intro x hx
      rcases List.mem_cons.1 hx with h | h
      · subst h
        exact hge
      · exact hall x h

/-- C26. For every non-empty finite sequence of entries that all carry the node id
`id`, merged one after another into a store that does not hold `id`, the stored
`(Incarnation, State)` afterwards is the lexicographic maximum of the entries' pairs:
it is the pair of one of the entries and no entry's pair is above it. Hence merging the
same entries in any other order leaves the same Incarnation and State. -/
theorem Merge_sequence_lex_max (m : membership) (id : NodeID)
    (es : List (GossipEntry × Time)) (hne : es ≠ [])
    (habsent : (m.GetNode id).2 = false) (hid : ∀ x ∈ es, x.1.NodeID = id) :
    ∃ node, (mergeSeq m es).GetNode id = (node, true) ∧
      (∃ x ∈ es, (x.1.Incarnation, x.1.State) = (node.Incarnation, node.State)) ∧
      (∀ x ∈ es, lexLe (x.1.Incarnation, x.1.State) (node.Incarnation, node.State)) ∧
      (∀ es' : List (GossipEntry × Time), es'.Perm es →
        ∃ node', (mergeSeq m es').GetNode id = (node', true) ∧
          node'.Incarnation = node.Incarnation ∧ node'.State = node.State) := by
  obtain ⟨node, hnode, hfrom, hall⟩ := mergeSeq_absent_max m id es hne habsent hid
  refine ⟨node, hnode, hfrom, hall, ?_⟩
  intro es' hperm
  have hne' : es' ≠ [] := by
    intro h
    rw [h] at hperm
    exact hne (List.Perm.eq_nil (List.Perm.symm hperm))
  have hid' : ∀ x ∈ es', x.1.NodeID = id := fun x hx => hid x (hperm.subset hx)
  obtain ⟨node', hnode', hfrom', hall'⟩ := mergeSeq_absent_max m id es' hne' habsent hid'
  obtain ⟨x, hx, hxr⟩ := hfrom
  obtain ⟨y, hy, hyr⟩ := hfrom'
  have h₁ : lexLe (node.Incarnation, node.State) (node'.Incarnation, node'.State) := by
    rw [← hxr]
    exact hall' x (hperm.symm.subset hx)
  have h₂ : lexLe (node'.Incarnation, node'.State) (node.Incarnation, node.State) := by
    rw [← hyr]
    exact hall y (hperm.subset hy)
  have heq := lexLe_antisymm _ _ h₂ h₁
  exact ⟨node', hnode', (Prod.mk.inj heq).1, (Prod.mk.inj heq).2⟩

/-- Three entries for "B" merged into the empty store leave `(inc=2, Alive)`, the
maximum of `(1, Suspect)`, `(2, Alive)` and `(1, Dead)`. -/
theorem Merge_sequence_lex_max_witness :
    ∃ node, (mergeSeq NewMembership
        [(exEntry "B" StateSuspect 1, 0), (exEntry "B" StateAlive 2, 1),
         (exEntry "B" StateDead 1, 2)]).GetNode "B" = (node, true) ∧
      (∃ x ∈ [(exEntry "B" StateSuspect 1, 0), (exEntry "B" StateAlive 2, 1),
          (exEntry "B" StateDead 1, 2)],
        (x.1.Incarnation, x.1.State) = (node.Incarnation, node.State)) ∧
      (∀ x ∈ [(exEntry "B" StateSuspect 1, 0), (exEntry "B" StateAlive 2, 1),
          (exEntry "B" StateDead 1, 2)],
        lexLe (x.1.Incarnation, x.1.State) (node.Incarnation, node.State)) ∧
      (∀ es' : List (GossipEntry × Time),
        es'.Perm [(exEntry "B" StateSuspect 1, 0), (exEntry "B" StateAlive 2, 1),
          (exEntry "B" StateDead 1, 2)] →
        ∃ node', (mergeSeq NewMembership es').GetNode "B" = (node', true) ∧
          node'.Incarnation = node.Incarnation ∧ node'.State = node.State) :=
  Merge_sequence_lex_max NewMembership "B"
    [(exEntry "B" StateSuspect 1, 0), (exEntry "B" StateAlive 2, 1),
     (exEntry "B" StateDead 1, 2)] (by decide) (by decide) (by decide)

end gossip
